import Mathlib

/-!
Verification of the device-registry and firewall-reconciliation core of the
parental-controls repository.

The development shallowly embeds the Python sources
`backend/mac_manager.py` (class `MACAddressManager`) and
`backend/opnsense_integration.py` (class `OPNsenseManager`) into Lean.

Modelling conventions:
* Python strings are Lean `String`s; string algorithms are written over
  `List Char` (a Lean `String` wraps a `List Char`).  Character case
  conversion (`str.upper`/`str.lower`) is modelled on the ASCII range,
  which is exhaustive for every character class the code inspects.
* Timestamps (`added_date`, `updated_date`, backup-file names) are
  informational only in the source and are elided from the device record;
  where a timestamp participates in produced data (the OPNsense alias
  description) it is passed in explicitly as a string parameter.
* Filesystem and remote-command effects are modelled by explicit state
  passing plus boolean outcome parameters for each fallible external step
  (backup copy, ssh/scp commands).
* The remote firewall configuration is modelled as an element tree (the
  code parses the fetched XML with `xml.etree.ElementTree`, mutates the
  tree and re-serialises it); fetch/push move whole trees, and a
  serialiser is provided to express byte-level statements.
-/

/-! ### Python string primitives -/

/-- Python's whitespace class for `str.strip` and the regex class `\s`:
space (32), tab (9), newline (10), carriage return (13), vertical tab
(11), form feed (12). -/
def isPyWs (c : Char) : Bool :=
  decide (c.toNat = 32 ∨ c.toNat = 9 ∨ c.toNat = 10 ∨ c.toNat = 13 ∨
          c.toNat = 11 ∨ c.toNat = 12)

/-- Drop leading Python whitespace (`str.lstrip`). -/
def pyLstrip (l : List Char) : List Char := l.dropWhile isPyWs

/-- Drop trailing Python whitespace (`str.rstrip`). -/
def pyRstrip : List Char → List Char
  | [] => []
  | c :: cs =>
    let r := pyRstrip cs
    if r.isEmpty && isPyWs c then [] else c :: r

/-- Python `str.strip`. -/
def pyStrip (l : List Char) : List Char := pyLstrip (pyRstrip l)

/-- Prepend a character to the first field of a non-empty field list. -/
def consHead (c : Char) : List (List Char) → List (List Char)
  | [] => [[c]]   -- unreachable: splitChar never returns []
  | h :: t => (c :: h) :: t

/-- Python `str.split(sep)` for a one-character separator (no maxsplit):
`"".split(c) = [""]`, and separators delimit possibly-empty fields. -/
def splitChar (sep : Char) : List Char → List (List Char)
  | [] => [[]]
  | c :: cs =>
    if c = sep then [] :: splitChar sep cs else consHead c (splitChar sep cs)

/-- Python `str.split(sep, 1)` restricted to what the store format uses:
split at the first occurrence of `sep`, if any. -/
def splitOnce (sep : Char) : List Char → Option (List Char × List Char)
  | [] => none
  | c :: cs =>
    if c = sep then some ([], cs)
    else match splitOnce sep cs with
      | none => none
      | some (a, b) => some (c :: a, b)

/-- ASCII upper-casing of one character, as Python's `str.upper` acts on
the ASCII range (the only range the code's character classes can keep). -/
def asciiUpper (c : Char) : Char :=
  if 97 ≤ c.toNat ∧ c.toNat ≤ 122 then Char.ofNat (c.toNat - 32) else c

/-- ASCII lower-casing of one character (Python `str.lower` on ASCII). -/
def asciiLower (c : Char) : Char :=
  if 65 ≤ c.toNat ∧ c.toNat ≤ 90 then Char.ofNat (c.toNat + 32) else c

/-- Python `str.lower()` of a whole string (ASCII model). -/
def lowerStr (s : String) : String := String.mk (s.data.map asciiLower)

/-- Membership in the regex class `[0-9A-F]` (upper-case hex digit). -/
def isHexUpper (c : Char) : Bool :=
  decide ((48 ≤ c.toNat ∧ c.toNat ≤ 57) ∨ (65 ≤ c.toNat ∧ c.toNat ≤ 70))

/-- Membership in the regex class `[0-9A-Fa-f]` (any-case hex digit). -/
def isHexAny (c : Char) : Bool :=
  decide ((48 ≤ c.toNat ∧ c.toNat ≤ 57) ∨ (65 ≤ c.toNat ∧ c.toNat ≤ 70) ∨
          (97 ≤ c.toNat ∧ c.toNat ≤ 102))

/-- Join consecutive pairs of characters with a separator, as
`sep.join([s[i:i+2] for i in range(0, 12, 2)])` does on the length-12
strings it is applied to. -/
def sepPairs (sep : Char) : List Char → List Char
  | a :: b :: c :: rest => a :: b :: sep :: sepPairs sep (c :: rest)
  | l => l

/-! ### `MACAddressManager.normalize_mac` and `validate_device_name` -/

/-- `MACAddressManager.normalize_mac`: uppercase, strip every character
outside `[0-9A-Fa-f]`, require exactly 12 remaining characters (then a
redundant all-hex re-check), and join the six pairs with `:`. -/
def normalize_mac (mac_address : String) : Except String String :=
  let clean_mac := (mac_address.data.map asciiUpper).filter isHexUpper
  if clean_mac.length ≠ 12 then
    .error ("Invalid MAC address length: " ++ mac_address)
  else if !(clean_mac.all isHexUpper) then
    .error ("Invalid MAC address format: " ++ mac_address)
  else
    .ok (String.mk (sepPairs ':' clean_mac))

/-- Membership in the regex class `[a-zA-Z0-9_\-\s]` of characters kept
by `validate_device_name`. -/
def allowedNameChar (c : Char) : Bool :=
  decide ((97 ≤ c.toNat ∧ c.toNat ≤ 122) ∨ (65 ≤ c.toNat ∧ c.toNat ≤ 90) ∨
          (48 ≤ c.toNat ∧ c.toNat ≤ 57)) ||
  c = '_' || c = '-' || isPyWs c

/-- `MACAddressManager.validate_device_name`: reject empty (after strip),
strip, drop disallowed characters, reject if nothing remains, truncate to
50 characters. -/
def validate_device_name (name : String) : Except String String :=
  if (pyStrip name.data).isEmpty then
    .error "Device name cannot be empty"
  else
    let clean_name := (pyStrip name.data).filter allowedNameChar
    if clean_name.length = 0 then
      .error "Device name contains no valid characters"
    else
      .ok (String.mk (clean_name.take 50))

/-! ### Decimal integers: `f"{id}"` and `int(id_str)` -/

/-- A decimal digit character. -/
def isDigitChar (c : Char) : Bool := decide (48 ≤ c.toNat ∧ c.toNat ≤ 57)

/-- The character of one decimal digit value. -/
def digitChar10 (d : Nat) : Char := Char.ofNat (48 + d)

/-- Decimal digits, most significant first, with explicit fuel so that
the kernel can evaluate concrete stores (the fuel is irrelevant once it
exceeds the value, see `natCharsAux_congr`). -/
def natCharsAux : Nat → Nat → List Char
  | 0, _ => []
  | fuel + 1, n =>
    if n < 10 then [digitChar10 n]
    else natCharsAux fuel (n / 10) ++ [digitChar10 (n % 10)]

/-- Decimal digits of a natural number, most significant first
(the characters `f"{n}"` produces). -/
def natChars (n : Nat) : List Char := natCharsAux (n + 1) n

/-- Decimal rendering of a Python `int` (as `f"{id}"` renders it). -/
def intChars (i : Int) : List Char :=
  if i < 0 then '-' :: natChars i.natAbs else natChars i.toNat

/-- Numeric value of a list of decimal digit characters. -/
def digitsVal (l : List Char) : Nat :=
  l.foldl (fun a c => 10 * a + (c.toNat - 48)) 0

/-- Python `int(s)` as it applies to the strings occurring in this store
format: an optional sign followed by decimal digits (Python's acceptance
of surrounding whitespace and of `_` digit separators is elided; no such
string is ever produced by the store writer). `none` models the
`ValueError` branch. -/
def strToInt? : List Char → Option Int
  | [] => none
  | c :: ds =>
    if c = '-' then
      if ds ≠ [] ∧ ds.all isDigitChar then some (-(digitsVal ds : Int)) else none
    else if c = '+' then
      if ds ≠ [] ∧ ds.all isDigitChar then some (digitsVal ds : Int) else none
    else if (c :: ds).all isDigitChar then some (digitsVal (c :: ds) : Int)
    else none

/-! ### The device record and the persisted store -/

/-- One entry of the device registry, as the dictionaries built by
`MACAddressManager.load_mac_addresses`/`add_device`.  The informational
fields `added_date`, `updated_date` and `line_number` of the Python dict
are elided: they are never persisted and never read by any operation. -/
structure Device where
  id : Int
  name : String
  mac : String
  original_mac : String
  enabled : Bool
deriving Repr, DecidableEq

/-- The store line `f"{device['id']}|{device['name']}\t{device['original_mac']}\t"`. -/
def lineOf (d : Device) : List Char :=
  intChars d.id ++ '|' :: d.name.data ++ '\t' :: d.original_mac.data ++ ['\t']

/-- Equality of `Except` values is decidable (needed to evaluate claims
on concrete registry operations). -/
instance {ε α : Type} [DecidableEq ε] [DecidableEq α] : DecidableEq (Except ε α) :=
  fun x y =>
    match x, y with
    | .ok a, .ok b =>
      if h : a = b then isTrue (by rw [h])
      else isFalse (by intro hh; cases hh; exact h rfl)
    | .error a, .error b =>
      if h : a = b then isTrue (by rw [h])
      else isFalse (by intro hh; cases hh; exact h rfl)
    | .ok _, .error _ => isFalse (by intro hh; cases hh)
    | .error _, .ok _ => isFalse (by intro hh; cases hh)

/-- `sorted(devices, key=lambda x: x.get('id', 0))`.  Python's `sorted`
is a stable ascending sort; insertion sort is the same function (stable
sorts agree), and is structurally recursive so that concrete stores
evaluate. -/
def sortById (ds : List Device) : List Device :=
  ds.insertionSort (fun a b => a.id ≤ b.id)

instance : IsTotal Device (fun a b => a.id ≤ b.id) :=
  ⟨fun a b => Int.le_total a.id b.id⟩

instance : IsTrans Device (fun a b => a.id ≤ b.id) :=
  ⟨fun _ _ _ => Int.le_trans⟩

/-- The full text written by `save_mac_addresses`: sort by id, keep the
enabled devices, one line each, `'\n'.join(lines) + '\n'`. -/
def serializeDevices (devices : List Device) : String :=
  let lines := ((sortById devices).filter (fun d => d.enabled)).map lineOf
  String.mk (List.intercalate ['\n'] lines ++ ['\n'])

/-- Parse one line of the store (the body of the `for line_num, line in
enumerate(...)` loop of `load_mac_addresses`); `none` models every
`continue` branch (blank line, fewer than two tab-separated parts,
invalid MAC, invalid name). -/
def parseLine (line_num : Nat) (raw : List Char) : Option Device :=
  let line := pyStrip raw
  if line.isEmpty then none
  else
    match splitChar '\t' line with
    | id_name_part :: mac_part :: _ =>
      let idName : Int × List Char :=
        match splitOnce '|' id_name_part with
        | some (id_str, nm) =>
          (match strToInt? id_str with
           | some i => i
           | none => (line_num : Int), nm)
        | none => ((line_num : Int), id_name_part)
      match normalize_mac (String.mk mac_part) with
      | .error _ => none
      | .ok normalized_mac =>
        match validate_device_name (String.mk idName.2) with
        | .error _ => none
        | .ok clean_name =>
          some { id := idName.1, name := clean_name, mac := normalized_mac,
                 original_mac := String.mk mac_part, enabled := true }
    | _ => none

/-- The line loop of `load_mac_addresses`, with 1-based line numbers. -/
def parseLines : Nat → List (List Char) → List Device
  | _, [] => []
  | k, l :: ls =>
    match parseLine k l with
    | some d => d :: parseLines (k + 1) ls
    | none => parseLines (k + 1) ls

/-- The filesystem state visible to `MACAddressManager`: the store file
(`mac_addresses.txt`).  Timestamped backup copies are modelled only by
the success/failure of the copy step (their content is never read back). -/
structure FS where
  storeExists : Bool
  store : String
deriving Repr, DecidableEq

/-- `MACAddressManager.load_mac_addresses`: read the store, strip, return
`[]` if empty, else parse the `'\n'`-separated lines. -/
def load_mac_addresses (fs : FS) : List Device :=
  if !fs.storeExists then []
  else
    let content := pyStrip fs.store.data
    if content.isEmpty then []
    else parseLines 1 (splitChar '\n' content)

/-- `MACAddressManager.save_mac_addresses devices`: copy the store to a
timestamped backup if it exists (`backupOk = false` models that copy
raising, which the surrounding `try` turns into `return False` before the
store is written), then write the serialised enabled devices. -/
def save_mac_addresses (devices : List Device) (backupOk : Bool) (fs : FS) :
    Bool × FS :=
  if fs.storeExists && !backupOk then (false, fs)
  else (true, { storeExists := true, store := serializeDevices devices })

/-! ### Registry CRUD operations -/

/-- The duplicate scan of `add_device`: first device with an equal
normalized MAC raises, else first device with a case-insensitively equal
name raises. -/
def dupCheck (normalized_mac clean_name : String) : List Device → Option String
  | [] => none
  | d :: ds =>
    if d.mac = normalized_mac then
      some ("MAC address " ++ normalized_mac ++ " already exists for device '" ++
            d.name ++ "'")
    else if lowerStr d.name = lowerStr clean_name then
      some ("Device name '" ++ clean_name ++ "' already exists")
    else dupCheck normalized_mac clean_name ds

/-- `max([d.get('id', 0) for d in devices]) if devices else 0`. -/
def maxId : List Device → Int
  | [] => 0
  | d :: ds => ds.foldl (fun a x => max a x.id) d.id

/-- `MACAddressManager.add_device`: load, validate both inputs, scan for
duplicates, assign `max+1`, append, save; `.error` models each `raise`. -/
def add_device (name mac : String) (backupOk : Bool) (fs : FS) :
    Except String Device × FS :=
  let devices := load_mac_addresses fs
  match validate_device_name name with
  | .error e => (.error e, fs)
  | .ok clean_name =>
    match normalize_mac mac with
    | .error e => (.error e, fs)
    | .ok normalized_mac =>
      match dupCheck normalized_mac clean_name devices with
      | some e => (.error e, fs)
      | none =>
        let new_device : Device :=
          { id := maxId devices + 1, name := clean_name, mac := normalized_mac,
            original_mac := mac, enabled := true }
        let r := save_mac_addresses (devices ++ [new_device]) backupOk fs
        if r.1 then (.ok new_device, r.2)
        else (.error "Failed to save device to file", r.2)

/-- Replace the first device with the given id (the Python code mutates
the first matching dict in place). -/
def updateFirst (device_id : Int) (d' : Device) : List Device → List Device
  | [] => []
  | d :: ds =>
    if d.id = device_id then d' :: ds else d :: updateFirst device_id d' ds

/-- `MACAddressManager.update_device`: find the first device with the id,
apply each provided field with its conflict check, save. -/
def update_device (device_id : Int) (name? mac? : Option String)
    (enabled? : Option Bool) (backupOk : Bool) (fs : FS) :
    Except String Device × FS :=
  let devices := load_mac_addresses fs
  match devices.find? (fun d => d.id = device_id) with
  | none => (.error ("Device with ID " ++ String.mk (intChars device_id) ++ " not found"), fs)
  | some device =>
    let step1 : Except String Device :=
      match name? with
      | none => .ok device
      | some n =>
        match validate_device_name n with
        | .error e => .error e
        | .ok clean_name =>
          if devices.any (fun d =>
              d.id ≠ device_id && lowerStr d.name = lowerStr clean_name) then
            .error ("Device name '" ++ clean_name ++ "' already exists")
          else .ok { device with name := clean_name }
    match step1 with
    | .error e => (.error e, fs)
    | .ok device1 =>
      let step2 : Except String Device :=
        match mac? with
        | none => .ok device1
        | some m =>
          match normalize_mac m with
          | .error e => .error e
          | .ok normalized_mac =>
            if devices.any (fun d =>
                d.id ≠ device_id && d.mac = normalized_mac) then
              .error ("MAC address " ++ normalized_mac ++ " already exists")
            else .ok { device1 with mac := normalized_mac, original_mac := m }
      match step2 with
      | .error e => (.error e, fs)
      | .ok device2 =>
        let device3 :=
          match enabled? with
          | none => device2
          | some b => { device2 with enabled := b }
        let devices' := updateFirst device_id device3 devices
        let r := save_mac_addresses devices' backupOk fs
        if r.1 then (.ok device3, r.2)
        else (.error "Failed to save updated device", r.2)

/-- `MACAddressManager.delete_device`: drop every device with the id,
`NotFound` if nothing was dropped, else save and return the save result. -/
def delete_device (device_id : Int) (backupOk : Bool) (fs : FS) :
    Except String Bool × FS :=
  let devices := load_mac_addresses fs
  let remaining := devices.filter (fun d => !(d.id = device_id))
  if remaining.length = devices.length then
    (.error ("Device with ID " ++ String.mk (intChars device_id) ++ " not found"), fs)
  else
    let r := save_mac_addresses remaining backupOk fs
    (.ok r.1, r.2)

/-- `MACAddressManager.get_device`: first device with the id, if any. -/
def get_device (device_id : Int) (fs : FS) : Option Device :=
  (load_mac_addresses fs).find? (fun d => d.id = device_id)

/-- `MACAddressManager.get_all_devices`. -/
def get_all_devices (fs : FS) : List Device := load_mac_addresses fs

/-- `MACAddressManager.get_enabled_devices`. -/
def get_enabled_devices (fs : FS) : List Device :=
  (load_mac_addresses fs).filter (fun d => d.enabled)

/-! ### Storability, the registry invariant, and operation sequences
(claim-side notions for C5 and C10) -/

/-- A device name that survives the store's line format: it is a fixed
point of the validator (so the loader reconstructs it exactly) and
contains neither of the two separator characters of the line format. -/
def goodName (n : String) : Prop :=
  validate_device_name n = .ok n ∧ '\t' ∉ n.data ∧ '\n' ∉ n.data

/-- A device record that survives the store's line format. -/
def goodDev (d : Device) : Prop :=
  goodName d.name ∧ '\t' ∉ d.original_mac.data ∧ '\n' ∉ d.original_mac.data ∧
  normalize_mac d.original_mac = .ok d.mac

/-- What `load_mac_addresses` reconstructs from the line written for `d`:
the raw MAC loses its trailing whitespace to the per-line `strip`, and
the loader marks every parsed device enabled. -/
def trimDev (d : Device) : Device :=
  { d with original_mac := String.mk (pyRstrip d.original_mac.data),
           enabled := true }

/-- The registry invariant claimed by C5, stated of the list read back
from the store, together with the storability facts that make it
inductive: distinct ids, distinct normalized MACs, case-insensitively
distinct names, positive ids, storable records. -/
def RegistryInv (fs : FS) : Prop :=
  (((load_mac_addresses fs).map (fun d => d.id)).Nodup) ∧
  (((load_mac_addresses fs).map (fun d => d.mac)).Nodup) ∧
  (((load_mac_addresses fs).map (fun d => lowerStr d.name)).Nodup) ∧
  (∀ d ∈ load_mac_addresses fs, 1 ≤ d.id ∧ goodDev d)

/-- One registry mutation, with the backup-copy outcome of its save. -/
inductive RegOp where
  | add (name mac : String) (backupOk : Bool)
  | update (id : Int) (name? mac? : Option String) (enabled? : Option Bool)
      (backupOk : Bool)
  | del (id : Int) (backupOk : Bool)

/-- Run one mutation against the store. -/
def runOp (fs : FS) : RegOp → FS
  | .add n m bk => (add_device n m bk fs).2
  | .update i n? m? e? bk => (update_device i n? m? e? bk fs).2
  | .del i bk => (delete_device i bk fs).2

/-- Run a sequence of mutations from a starting store. -/
def runOps (fs : FS) : List RegOp → FS
  | [] => fs
  | op :: ops => runOps (runOp fs op) ops

/-- A raw name input whose cleaned form is storable. -/
def goodNameInput (s : String) : Prop :=
  ∀ cn, validate_device_name s = .ok cn → goodName cn

/-- A raw MAC input that survives the line format. -/
def goodMacInput (s : String) : Prop := '\t' ∉ s.data ∧ '\n' ∉ s.data

/-- The storability restriction of the amended C5: every name and MAC
string handed to a mutation must survive the store's line format. -/
def storableOp : RegOp → Prop
  | .add n m _ => goodNameInput n ∧ goodMacInput m
  | .update _ n? m? _ _ =>
    (∀ s, n? = some s → goodNameInput s) ∧ (∀ s, m? = some s → goodMacInput s)
  | .del _ _ => True

/-! ### Claim-side definitions for MAC formats (C4)

These render a 6-octet hardware address, given as twelve hex digit
values, in the three formats the claim names, and in the canonical form
the claim requires. -/

/-- Upper-case character of a hex digit value. -/
def hexUpperChar (d : Nat) : Char := Char.ofNat (if d < 10 then 48 + d else 55 + d)

/-- Lower-case character of a hex digit value. -/
def hexLowerChar (d : Nat) : Char := Char.ofNat (if d < 10 then 48 + d else 87 + d)

/-- Format `AABBCCDDEEFF`. -/
def bareUpper (ds : List Nat) : String := String.mk (ds.map hexUpperChar)

/-- Format `AA-BB-CC-DD-EE-FF`. -/
def dashedUpper (ds : List Nat) : String := String.mk (sepPairs '-' (ds.map hexUpperChar))

/-- Format `aa:bb:cc:dd:ee:ff`. -/
def colonLower (ds : List Nat) : String := String.mk (sepPairs ':' (ds.map hexLowerChar))

/-- The canonical form `AA:BB:CC:DD:EE:FF` required by the claim. -/
def canonicalMac (ds : List Nat) : String := String.mk (sepPairs ':' (ds.map hexUpperChar))

/-- The hex-stripped prefix computation shared by the parts of
`normalize_mac`: uppercase, then keep hex characters. -/
def hexClean (l : List Char) : List Char := (l.map asciiUpper).filter isHexUpper

/-! ### The remote configuration document (`OPNsenseManager`)

`opnsense_integration.py` fetches `/conf/config.xml`, parses it with
`xml.etree.ElementTree`, patches the tree, serialises it and pushes it
back.  The remote document is modelled at tree level (one `Elem` per
XML element); fetch and push move whole trees, and `serializeElem`
expresses byte-level statements about subtrees. -/

/-- An element tree as `xml.etree.ElementTree` represents it: tag,
attributes in insertion order, optional text, children.  Tail text is
elided (never touched by the code). -/
inductive Elem where
  | mk (tag : String) (attrs : List (String × String)) (text : Option String)
      (children : List Elem)

def Elem.tag : Elem → String
  | .mk t _ _ _ => t

def Elem.attrs : Elem → List (String × String)
  | .mk _ a _ _ => a

def Elem.text : Elem → Option String
  | .mk _ _ x _ => x

def Elem.children : Elem → List Elem
  | .mk _ _ _ cs => cs

/-- `elem.find(tag)`: first direct child with the tag. -/
def Elem.findChild (tag : String) (e : Elem) : Option Elem :=
  e.children.find? (fun c => c.tag = tag)

/-- Replace the `n`-th entry of a list in place. -/
def listModify {α : Type} (f : α → α) : Nat → List α → List α
  | _, [] => []
  | 0, x :: xs => f x :: xs
  | n + 1, x :: xs => x :: listModify f n xs

/-- The element at a child-index path. -/
def getAt : Elem → List Nat → Option Elem
  | e, [] => some e
  | e, i :: p =>
    match e.children.get? i with
    | none => none
    | some c => getAt c p

mutual

/-- Apply `f` to the element at a child-index path (models in-place
mutation of an `ElementTree` node). -/
def modifyAt (f : Elem → Elem) : Elem → List Nat → Elem
  | e, [] => f e
  | .mk t a x cs, i :: p => .mk t a x (modifyAtChildren f i p cs)

def modifyAtChildren (f : Elem → Elem) : Nat → List Nat → List Elem → List Elem
  | _, _, [] => []
  | 0, p, c :: cs => modifyAt f c p :: cs
  | n + 1, p, c :: cs => c :: modifyAtChildren f n p cs

end

/-- `SubElement(e, …)`: append a child at the end. -/
def appendChild (c : Elem) : Elem → Elem
  | .mk t a x cs => .mk t a x (cs ++ [c])

/-- First index/value produced by `f` over a list with indices. -/
def firstIdxWith {α β : Type} (f : Nat → α → Option β) : Nat → List α → Option β
  | _, [] => none
  | n, x :: xs =>
    match f n x with
    | some b => some b
    | none => firstIdxWith f (n + 1) xs

/-- Inside one `OPNsense` element, the first
`Firewall/Alias/aliases` child chain, in the nested iteration order of
`ElementPath` (lexicographic on the three child indices). -/
def chain3 (e : Elem) : Option (List Nat) :=
  firstIdxWith (fun i c1 =>
    if c1.tag = "Firewall" then
      firstIdxWith (fun j c2 =>
        if c2.tag = "Alias" then
          firstIdxWith (fun k c3 =>
            if c3.tag = "aliases" then some [i, j, k] else none) 0 c2.children
        else none) 0 c1.children
    else none) 0 e.children

mutual

/-- `root.find(".//OPNsense/Firewall/Alias/aliases")`: ElementTree
iterates the proper descendants tagged `OPNsense` in preorder and takes
the first one that has the `Firewall/Alias/aliases` chain below it;
returns the path of the `aliases` element. -/
def findOPNChain : Elem → Option (List Nat)
  | .mk _ _ _ cs => findOPNChainList 0 cs

def findOPNChainList : Nat → List Elem → Option (List Nat)
  | _, [] => none
  | i, c :: cs =>
    ((if c.tag = "OPNsense" then (chain3 c).map (fun q => i :: q) else none).or
      ((findOPNChain c).map (fun p => i :: p))).or
      (findOPNChainList (i + 1) cs)

end

/-- Does this child look like `<alias>` whose `name` child has exactly
the given text (`find_alias_by_name`'s loop body)? -/
def aliasNameMatches (alias_name : String) (c : Elem) : Bool :=
  c.tag = "alias" &&
    (match Elem.findChild "name" c with
     | some ne => ne.text = some alias_name
     | none => false)

/-- `OPNsenseManager.find_alias_by_name`, returning the path of the
matching `alias` element (the model's stand-in for the object identity
the Python code gets back). -/
def find_alias_by_name (root : Elem) (alias_name : String) : Option (List Nat) :=
  match findOPNChain root with
  | none => none
  | some p =>
    match getAt root p with
    | none => none
    | some sec =>
      match sec.children.findIdx? (aliasNameMatches alias_name) with
      | some i => some (p ++ [i])
      | none => none

/-- The find-or-`SubElement` step used for each section level of
`create_or_update_mac_alias` (lines 172–188): look for a direct child
with the tag under the element at `p`; if absent, append a fresh one
with the given initial children.  Returns the updated document and the
child's path. -/
def getOrCreate (root : Elem) (p : List Nat) (tag : String) (initCs : List Elem) :
    Elem × List Nat :=
  match getAt root p with
  | none => (root, p)
  | some e =>
    match e.children.findIdx? (fun c => c.tag = tag) with
    | some i => (root, p ++ [i])
    | none =>
      (modifyAt (appendChild (.mk tag [] none initCs)) root p,
       p ++ [e.children.length])

/-- The property children written into the alias element (lines
206–222): fixed fields, the newline-joined MAC list, and the description
carrying the device count and the generation timestamp `now`. -/
def aliasProps (alias_name : String) (macs : List String) (now : String) :
    List Elem :=
  [ .mk "enabled" [] (some "1") [],
    .mk "name" [] (some alias_name) [],
    .mk "type" [] (some "mac") [],
    .mk "path_expression" [] (some "") [],
    .mk "proto" [] (some "") [],
    .mk "interface" [] (some "") [],
    .mk "counters" [] (some "0") [],
    .mk "updatefreq" [] (some "") [],
    .mk "content" [] (some (String.intercalate "\n" macs)) [],
    .mk "description" [] (some ("Parental Controls MAC Addresses (" ++
      toString macs.length ++ " devices) - Auto-generated " ++ now)) [] ]

/-- The XML-patching part of `create_or_update_mac_alias` (lines
168–225): get-or-create the `OPNsense/Firewall/Alias/aliases` chain by
direct-child lookups (a created `Alias` section gets a `version` child),
look the alias up by name with the descendant search, reuse it if found
(keeping its attributes, hence its uuid) or append a fresh one carrying
the freshly generated `uuid`, then clear its children and write the
property list. -/
def upsertAlias (alias_name : String) (macs : List String) (now uuid : String)
    (root : Elem) : Elem :=
  let s1 := getOrCreate root [] "OPNsense" []
  let s2 := getOrCreate s1.1 s1.2 "Firewall" []
  let s3 := getOrCreate s2.1 s2.2 "Alias" [.mk "version" [] (some "1.0.1") []]
  let s4 := getOrCreate s3.1 s3.2 "aliases" []
  let s5 : Elem × List Nat :=
    match find_alias_by_name s4.1 alias_name with
    | some q => (s4.1, q)
    | none =>
      (modifyAt (appendChild (.mk "alias" [("uuid", uuid)] none [])) s4.1 s4.2,
       s4.2 ++ [(match getAt s4.1 s4.2 with
                 | some e => e.children.length
                 | none => 0)])
  modifyAt (fun e => .mk e.tag e.attrs e.text (aliasProps alias_name macs now))
    s5.1 s5.2

mutual

/-- Neither this element nor any of its descendants is tagged
`OPNsense` (hypothesis of the amended C7: the document does not yet
contain an OPNsense section). -/
def noOPNElem : Elem → Bool
  | .mk t _ _ cs => (!(t = "OPNsense" : Bool)) && noOPNList cs

def noOPNList : List Elem → Bool
  | [] => true
  | c :: cs => noOPNElem c && noOPNList cs

end

/-- XML escaping for text content (`&`, `<`, `>`). -/
def escapeText (s : String) : String :=
  String.mk (s.data.foldr (fun c acc =>
    (if c = '&' then "&amp;".data
     else if c = '<' then "&lt;".data
     else if c = '>' then "&gt;".data
     else [c]) ++ acc) [])

/-- XML escaping for attribute values (adds `"`). -/
def escapeAttr (s : String) : String :=
  String.mk (s.data.foldr (fun c acc =>
    (if c = '&' then "&amp;".data
     else if c = '<' then "&lt;".data
     else if c = '>' then "&gt;".data
     else if c = '"' then "&quot;".data
     else [c]) ++ acc) [])

def serializeAttrs : List (String × String) → String
  | [] => ""
  | (k, v) :: rest => " " ++ k ++ "=\"" ++ escapeAttr v ++ "\"" ++ serializeAttrs rest

mutual

/-- `ET.tostring` of one element: self-closing when it has neither text
nor children, otherwise open tag, text, children, close tag. -/
def serializeElem : Elem → String
  | .mk t a x cs =>
    match x, cs with
    | none, [] => "<" ++ t ++ serializeAttrs a ++ " />"
    | _, _ =>
      "<" ++ t ++ serializeAttrs a ++ ">" ++
      (match x with
       | some s => escapeText s
       | none => "") ++
      serializeList cs ++ "</" ++ t ++ ">"

def serializeList : List Elem → String
  | [] => ""
  | c :: cs => serializeElem c ++ serializeList cs

end

/-- The remote firewall state: the parsed view of `/conf/config.xml`. -/
structure Remote where
  doc : Elem

/-- Outcomes of the fallible remote steps of one reconciliation pass,
one per ssh/scp command the code can issue. -/
structure RemoteEnv where
  backupCfgOk : Bool
  fetchOk : Bool
  scpOk : Bool
  mvOk : Bool
  configdOk : Bool
  filterReloadOk : Bool
  fw1Ok : Bool
  fw2Ok : Bool

/-- The remote operations, in the order the code can attempt them:
backup copy of the config, fetch (`cat`), push (`scp` then `mv`),
restart of configd, filter reload, the firewall-reconfigure script
(`rc.configure_firewall`), the alternate script (`rc.filter_configure`). -/
inductive RemoteOp where
  | backupCfg
  | fetchCfg
  | scpConfig
  | mvConfig
  | restartConfigd
  | filterReload
  | configureFirewall
  | filterConfigure
deriving DecidableEq, Repr

/-- `OPNsenseManager.apply_config_xml`: scp the new document to `/tmp`,
`mv` it over `/conf/config.xml` (from this point the remote document is
replaced, whatever the reloads do), then the reload chain: restart
configd and reload the filter — both warn-and-continue regardless of
outcome — then `rc.configure_firewall`; on its failure,
`rc.filter_configure`; failure of both is the failure of the apply.
Returns the result, the remote state and the trace of attempted
operations. -/
def apply_config_xml (newDoc : Elem) (env : RemoteEnv) (r : Remote) :
    Bool × Remote × List RemoteOp :=
  if !env.scpOk then (false, r, [.scpConfig])
  else if !env.mvOk then (false, r, [.scpConfig, .mvConfig])
  else
    let r' : Remote := { doc := newDoc }
    if env.fw1Ok then
      (true, r',
       [.scpConfig, .mvConfig, .restartConfigd, .filterReload, .configureFirewall])
    else if env.fw2Ok then
      (true, r',
       [.scpConfig, .mvConfig, .restartConfigd, .filterReload, .configureFirewall,
        .filterConfigure])
    else
      (false, r',
       [.scpConfig, .mvConfig, .restartConfigd, .filterReload, .configureFirewall,
        .filterConfigure])

/-- `OPNsenseManager.create_or_update_mac_alias`: snapshot the enabled
devices; with none, fail before touching the remote; else backup the
remote config, fetch it, upsert the alias subtree and apply. -/
def create_or_update_mac_alias (alias_name : String) (now uuid : String)
    (env : RemoteEnv) (fs : FS) (r : Remote) : Bool × Remote × List RemoteOp :=
  let enabled_devices := get_enabled_devices fs
  if enabled_devices.isEmpty then (false, r, [])
  else if !env.backupCfgOk then (false, r, [.backupCfg])
  else if !env.fetchOk then (false, r, [.backupCfg, .fetchCfg])
  else
    let root' := upsertAlias alias_name (enabled_devices.map (fun d => d.mac))
      now uuid r.doc
    let res := apply_config_xml root' env r
    (res.1, res.2.1, [.backupCfg, .fetchCfg] ++ res.2.2)

/-- Is this the parental-control block rule: a `rule` child whose
`descr` text contains the marker substring? -/
def isPrefixChars : List Char → List Char → Bool
  | [], _ => true
  | _ :: _, [] => false
  | a :: as, b :: bs => a = b && isPrefixChars as bs

/-- Substring containment (Python's `in` operator on strings). -/
def containsSubChars (pat : List Char) : List Char → Bool
  | [] => isPrefixChars pat []
  | c :: cs => isPrefixChars pat (c :: cs) || containsSubChars pat cs

def containsSub (pat s : String) : Bool := containsSubChars pat.data s.data

def ruleMatches (c : Elem) : Bool :=
  c.tag = "rule" &&
    (match Elem.findChild "descr" c with
     | some de =>
       match de.text with
       | some t => containsSub "ParentalControlBlock" t
       | none => false
     | none => false)

/-- Set the rule's `disabled` child's text, creating the child if
missing (lines 348–352). -/
def setDisabled (v : String) (rule : Elem) : Elem :=
  match rule.children.findIdx? (fun c => c.tag = "disabled") with
  | some k =>
    .mk rule.tag rule.attrs rule.text
      (listModify (fun c => .mk c.tag c.attrs (some v) c.children) k rule.children)
  | none => appendChild (.mk "disabled" [] (some v) []) rule

/-- `OPNsenseManager.toggle_parental_controls`: fetch, find the direct
`filter` child, find the first rule whose description contains
`ParentalControlBlock`, set its disabled flag to `"0"`/`"1"`, apply. -/
def toggle_parental_controls (enable : Bool) (env : RemoteEnv) (r : Remote) :
    Bool × Remote × List RemoteOp :=
  if !env.fetchOk then (false, r, [.fetchCfg])
  else
    match r.doc.children.findIdx? (fun c => c.tag = "filter") with
    | none => (false, r, [.fetchCfg])
    | some fi =>
      match (match getAt r.doc [fi] with
             | some fsec => fsec.children.findIdx? ruleMatches
             | none => none) with
      | none => (false, r, [.fetchCfg])
      | some ri =>
        let v := if enable then "0" else "1"
        let doc' := modifyAt (setDisabled v) r.doc [fi, ri]
        let res := apply_config_xml doc' env r
        (res.1, res.2.1, .fetchCfg :: res.2.2)

/-- The status record returned by `get_parental_control_status`. -/
structure PCStatus where
  alias_exists : Bool
  rule_exists : Bool
  rule_enabled : Bool
  device_count : Nat
  controls_active : Bool
deriving Repr, DecidableEq

/-- `OPNsenseManager.get_parental_control_status`: read-only scan of
the remote document plus the enabled-device count. -/
def get_parental_control_status (env : RemoteEnv) (fs : FS) (r : Remote) :
    Except String PCStatus :=
  if !env.fetchOk then .error "Failed to get configuration"
  else
    let root := r.doc
    let alias_exists := (find_alias_by_name root "ParentalControlMACs").isSome
    let ruleInfo : Bool × Bool :=
      match root.children.find? (fun c => c.tag = "filter") with
      | none => (false, false)
      | some fsec =>
        match fsec.children.find? ruleMatches with
        | none => (false, false)
        | some rule =>
          (true,
           match Elem.findChild "disabled" rule with
           | none => true
           | some de => decide (de.text ≠ some "1"))
    .ok { alias_exists := alias_exists, rule_exists := ruleInfo.1,
          rule_enabled := ruleInfo.2,
          device_count := (get_enabled_devices fs).length,
          controls_active := alias_exists && ruleInfo.1 && ruleInfo.2 }

/-! ## Theorems -/

set_option maxRecDepth 100000

/-! ### Character-level lemmas -/

theorem charToNat_ofNat (n : Nat) (h : Nat.isValidChar n) : (Char.ofNat n).toNat = n := by
  unfold Char.ofNat
  rw [dif_pos h]
  rfl

theorem isHexUpper_asciiUpper (c : Char) : isHexUpper (asciiUpper c) = isHexAny c := by
  unfold asciiUpper isHexUpper isHexAny
  by_cases h : 97 ≤ c.toNat ∧ c.toNat ≤ 122
  · rw [if_pos h]
    have hv : Nat.isValidChar (c.toNat - 32) := Or.inl (by omega)
    rw [charToNat_ofNat _ hv]
    simp only [decide_eq_decide]
    omega
  · rw [if_neg h]
    simp only [decide_eq_decide]
    omega

theorem hexClean_cons (c : Char) (l : List Char) :
    hexClean (c :: l) =
      (if isHexAny c then [asciiUpper c] else []) ++ hexClean l := by
  simp only [hexClean, List.map_cons, List.filter_cons, isHexUpper_asciiUpper]
  by_cases h : isHexAny c = true
  · rw [if_pos h, if_pos h]; rfl
  · rw [if_neg h, if_neg h]; rfl

theorem hexClean_length (l : List Char) :
    (hexClean l).length = (l.filter isHexAny).length := by
  induction l with
  | nil => rfl
  | cons c cs ih =>
    rw [hexClean_cons, List.filter_cons, List.length_append]
    by_cases h : isHexAny c = true
    · rw [if_pos h, if_pos h]
      simp [ih, Nat.add_comm]
    · rw [if_neg h, if_neg h]
      simp [ih]

theorem hexClean_of_allHex (l : List Char) (h : ∀ c ∈ l, isHexAny c = true) :
    hexClean l = l.map asciiUpper := by
  induction l with
  | nil => rfl
  | cons c cs ih =>
    rw [hexClean_cons, if_pos (h c (List.mem_cons_self c cs)), List.map_cons]
    rw [ih (fun x hx => h x (List.mem_cons_of_mem c hx))]
    rfl

theorem hexClean_sepPairs (sep : Char) (hs1 : isHexAny sep = false) :
    ∀ l, hexClean (sepPairs sep l) = hexClean l
  | [] => rfl
  | [a] => rfl
  | [a, b] => rfl
  | a :: b :: c :: rest => by
    have ih := hexClean_sepPairs sep hs1 (c :: rest)
    rw [sepPairs]
    simp only [hexClean_cons, hs1, ih]
    simp

theorem hexDigit_facts : ∀ d : Fin 16,
    asciiUpper (hexUpperChar d.val) = hexUpperChar d.val ∧
    asciiUpper (hexLowerChar d.val) = hexUpperChar d.val ∧
    isHexAny (hexUpperChar d.val) = true ∧
    isHexAny (hexLowerChar d.val) = true ∧
    isHexUpper (hexUpperChar d.val) = true := by decide

theorem hexClean_upperDigits (ds : List Nat) (h : ∀ d ∈ ds, d < 16) :
    hexClean (ds.map hexUpperChar) = ds.map hexUpperChar := by
  induction ds with
  | nil => rfl
  | cons d ds ih =>
    have hd := hexDigit_facts ⟨d, h d (List.mem_cons_self d ds)⟩
    rw [List.map_cons, hexClean_cons, if_pos hd.2.2.1, hd.1,
        ih (fun x hx => h x (List.mem_cons_of_mem d hx))]
    rfl

theorem hexClean_lowerDigits (ds : List Nat) (h : ∀ d ∈ ds, d < 16) :
    hexClean (ds.map hexLowerChar) = ds.map hexUpperChar := by
  induction ds with
  | nil => rfl
  | cons d ds ih =>
    have hd := hexDigit_facts ⟨d, h d (List.mem_cons_self d ds)⟩
    rw [List.map_cons, hexClean_cons, if_pos hd.2.2.2.1, hd.2.1,
        ih (fun x hx => h x (List.mem_cons_of_mem d hx))]
    rfl

theorem all_upperDigits (ds : List Nat) (h : ∀ d ∈ ds, d < 16) :
    (ds.map hexUpperChar).all isHexUpper = true := by
  rw [List.all_eq_true]
  intro c hc
  obtain ⟨d, hd, rfl⟩ := List.mem_map.mp hc
  exact (hexDigit_facts ⟨d, h d hd⟩).2.2.2.2

theorem normalize_mac_eq (s : String) :
    normalize_mac s =
      (if (hexClean s.data).length ≠ 12 then
        .error ("Invalid MAC address length: " ++ s)
      else if !((hexClean s.data).all isHexUpper) then
        .error ("Invalid MAC address format: " ++ s)
      else
        .ok (String.mk (sepPairs ':' (hexClean s.data)))) := rfl

theorem normalize_mac_of_clean (s : String) (ds : List Nat)
    (hlen : ds.length = 12) (hds : ∀ d ∈ ds, d < 16)
    (hc : hexClean s.data = ds.map hexUpperChar) :
    normalize_mac s = .ok (String.mk (sepPairs ':' (ds.map hexUpperChar))) := by
  rw [normalize_mac_eq, hc]
  rw [if_neg (by simp [hlen]), all_upperDigits ds hds]
  rfl

/-- **C4.** For every 6-octet hardware address, given as its twelve hex
digit values, `normalize_mac` maps each of the three raw formats
`AA-BB-CC-DD-EE-FF`, `AABBCCDDEEFF` and `aa:bb:cc:dd:ee:ff` to the
identical canonical upper-case colon-separated form; and for every raw
string, `normalize_mac` fails exactly when the string stripped of all
non-hex characters does not consist of exactly 12 hex digits. -/
theorem normalize_mac_formats_and_failure :
    (∀ ds : List Nat, ds.length = 12 → (∀ d ∈ ds, d < 16) →
      normalize_mac (bareUpper ds) = .ok (canonicalMac ds) ∧
      normalize_mac (dashedUpper ds) = .ok (canonicalMac ds) ∧
      normalize_mac (colonLower ds) = .ok (canonicalMac ds)) ∧
    (∀ s : String,
      (∃ e, normalize_mac s = .error e) ↔
        (s.data.filter isHexAny).length ≠ 12) := by
  constructor
  · intro ds hlen hds
    have hdash : isHexAny '-' = false := by decide
    have hbare : hexClean (bareUpper ds).data = ds.map hexUpperChar :=
      hexClean_upperDigits ds hds
    have hdashed : hexClean (dashedUpper ds).data = ds.map hexUpperChar := by
      show hexClean (sepPairs '-' (ds.map hexUpperChar)) = _
      rw [hexClean_sepPairs '-' hdash, hexClean_upperDigits ds hds]
    have hcolon : hexClean (colonLower ds).data = ds.map hexUpperChar := by
      show hexClean (sepPairs ':' (ds.map hexLowerChar)) = _
      rw [hexClean_sepPairs ':' (by decide), hexClean_lowerDigits ds hds]
    exact ⟨normalize_mac_of_clean _ ds hlen hds hbare,
           normalize_mac_of_clean _ ds hlen hds hdashed,
           normalize_mac_of_clean _ ds hlen hds hcolon⟩
  · intro s
    rw [← hexClean_length]
    by_cases h : (hexClean s.data).length = 12
    · constructor
      · rintro ⟨e, he⟩
        rw [normalize_mac_eq, if_neg (by simp [h])] at he
        have hall : (hexClean s.data).all isHexUpper = true := by
          rw [List.all_eq_true]
          intro c hc
          exact (List.mem_filter.mp hc).2
        rw [hall] at he
        simp at he
      · intro hne; exact absurd h hne
    · constructor
      · intro _; exact h
      · intro _
        exact ⟨_, by rw [normalize_mac_eq, if_pos (by simp [h])]⟩

/-! ### Whitespace, splitting and decimal-digit lemmas -/

theorem char_eq_of_toNat {a b : Char} (h : a.toNat = b.toNat) : a = b := by
  apply Char.eq_of_val_eq
  apply UInt32.eq_of_toBitVec_eq
  apply BitVec.eq_of_toNat_eq
  exact h

theorem char_ne_of_toNat {a b : Char} (h : a.toNat ≠ b.toNat) : a ≠ b :=
  fun e => h (by rw [e])

theorem pyRstrip_cons (c : Char) (t : List Char) :
    pyRstrip (c :: t) =
      if (pyRstrip t).isEmpty && isPyWs c then [] else c :: pyRstrip t := rfl

theorem pyRstrip_cons_of_head (c : Char) (t : List Char) (h : isPyWs c = false) :
    pyRstrip (c :: t) = c :: pyRstrip t := by
  rw [pyRstrip_cons, h, Bool.and_false]
  rfl

theorem pyRstrip_cons_of_ne (c : Char) (t : List Char) (h : pyRstrip t ≠ []) :
    pyRstrip (c :: t) = c :: pyRstrip t := by
  have he : (pyRstrip t).isEmpty = false := by
    cases hh : pyRstrip t
    · exact absurd hh h
    · rfl
  rw [pyRstrip_cons, he, Bool.false_and]
  rfl

theorem pyRstrip_all_ws (l : List Char) (h : ∀ c ∈ l, isPyWs c = true) :
    pyRstrip l = [] := by
  induction l with
  | nil => rfl
  | cons c t ih =>
    rw [pyRstrip_cons, ih (fun x hx => h x (List.mem_cons_of_mem c hx)),
        h c (List.mem_cons_self c t)]
    rfl

theorem pyRstrip_append_ws (xs ys : List Char) (h : ∀ c ∈ ys, isPyWs c = true) :
    pyRstrip (xs ++ ys) = pyRstrip xs := by
  induction xs with
  | nil => simpa using pyRstrip_all_ws ys h
  | cons c t ih =>
    show pyRstrip (c :: (t ++ ys)) = _
    rw [pyRstrip_cons, pyRstrip_cons, ih]

theorem pyRstrip_append_of_ne (xs ys : List Char) (h : pyRstrip ys ≠ []) :
    pyRstrip (xs ++ ys) = xs ++ pyRstrip ys := by
  induction xs with
  | nil => rfl
  | cons c t ih =>
    show pyRstrip (c :: (t ++ ys)) = _
    rw [pyRstrip_cons_of_ne _ _ (by rw [ih]; simp [h]), ih]
    rfl

theorem pyRstrip_idem : ∀ l : List Char, pyRstrip (pyRstrip l) = pyRstrip l
  | [] => rfl
  | c :: t => by
    have ih := pyRstrip_idem t
    by_cases hP : ((pyRstrip t).isEmpty && isPyWs c) = true
    · rw [pyRstrip_cons, if_pos hP]
      rfl
    · rw [pyRstrip_cons, if_neg hP, pyRstrip_cons, ih, if_neg hP]

theorem mem_pyRstrip : ∀ {c : Char} {l : List Char}, c ∈ pyRstrip l → c ∈ l := by
  intro c l
  induction l with
  | nil => exact fun h => h
  | cons d t ih =>
    rw [pyRstrip_cons]
    by_cases hP : ((pyRstrip t).isEmpty && isPyWs d) = true
    · rw [if_pos hP]; intro h; cases h
    · rw [if_neg hP]
      intro h
      rcases List.mem_cons.mp h with rfl | h
      · exact List.mem_cons_self _ _
      · exact List.mem_cons_of_mem _ (ih h)

theorem pyRstrip_ne_of_mem (l : List Char)
    (h : ∃ c ∈ l, isPyWs c = false) : pyRstrip l ≠ [] := by
  induction l with
  | nil => simp at h
  | cons d t ih =>
    rw [pyRstrip_cons]
    by_cases hP : ((pyRstrip t).isEmpty && isPyWs d) = true
    · exfalso
      obtain ⟨hte, hd⟩ : (pyRstrip t).isEmpty = true ∧ isPyWs d = true := by
        simpa using hP
      obtain ⟨c, hc, hcw⟩ := h
      rcases List.mem_cons.mp hc with rfl | hc
      · rw [hd] at hcw; cases hcw
      · exact ih ⟨c, hc, hcw⟩ (List.isEmpty_iff.mp hte)
    · rw [if_neg hP]; simp

theorem pyLstrip_cons_of_head (c : Char) (t : List Char) (h : isPyWs c = false) :
    pyLstrip (c :: t) = c :: t := by
  simp [pyLstrip, List.dropWhile_cons, h]

theorem pyStrip_pyRstrip (l : List Char) : pyStrip (pyRstrip l) = pyStrip l := by
  unfold pyStrip
  rw [pyRstrip_idem]

theorem splitChar_cons (sep c : Char) (cs : List Char) :
    splitChar sep (c :: cs) =
      if c = sep then [] :: splitChar sep cs else consHead c (splitChar sep cs) := rfl

theorem splitChar_not_mem (sep : Char) : ∀ l, sep ∉ l → splitChar sep l = [l]
  | [], _ => rfl
  | c :: cs, h => by
    have hc : ¬(c = sep) := fun e => h (e ▸ List.mem_cons_self c cs)
    have ht : splitChar sep cs = [cs] :=
      splitChar_not_mem sep cs (fun m => h (List.mem_cons_of_mem _ m))
    rw [splitChar_cons, if_neg hc, ht]
    rfl

theorem splitChar_append (sep : Char) :
    ∀ p rest, sep ∉ p →
      splitChar sep (p ++ sep :: rest) = p :: splitChar sep rest
  | [], rest, _ => by
    show splitChar sep (sep :: rest) = [] :: splitChar sep rest
    rw [splitChar_cons, if_pos rfl]
  | c :: p', rest, hmem => by
    have hc : ¬(c = sep) := fun e => hmem (e ▸ List.mem_cons_self c p')
    have ih := splitChar_append sep p' rest (fun m => hmem (List.mem_cons_of_mem _ m))
    show splitChar sep (c :: (p' ++ sep :: rest)) = _
    rw [splitChar_cons, if_neg hc, ih]
    rfl

theorem splitOnce_append (sep : Char) :
    ∀ xs ys, sep ∉ xs → splitOnce sep (xs ++ sep :: ys) = some (xs, ys)
  | [], ys, _ => by
    show (if sep = sep then some ([], ys)
          else match splitOnce sep ys with
            | none => none
            | some (a, b) => some (sep :: a, b)) = some ([], ys)
    rw [if_pos rfl]
  | c :: xs', ys, hmem => by
    have hc : ¬(c = sep) := fun e => hmem (e ▸ List.mem_cons_self c xs')
    have ih := splitOnce_append sep xs' ys (fun m => hmem (List.mem_cons_of_mem _ m))
    show (if c = sep then some ([], xs' ++ sep :: ys)
          else match splitOnce sep (xs' ++ sep :: ys) with
            | none => none
            | some (a, b) => some (c :: a, b)) = some (c :: xs', ys)
    rw [if_neg hc, ih]

theorem intercalate_cons_cons (c : Char) (l l' : List Char) (ls : List (List Char)) :
    List.intercalate [c] (l :: l' :: ls) =
      l ++ c :: List.intercalate [c] (l' :: ls) := by
  simp [List.intercalate, List.intersperse_cons_cons]

theorem intercalate_single (c : Char) (l : List Char) :
    List.intercalate [c] [l] = l := by
  simp [List.intercalate]

theorem digitChar10_toNat (d : Nat) (h : d < 10) : (digitChar10 d).toNat = 48 + d :=
  charToNat_ofNat _ (Or.inl (by omega))

theorem isDigitChar_digitChar10 (d : Nat) (h : d < 10) :
    isDigitChar (digitChar10 d) = true := by
  unfold isDigitChar
  rw [digitChar10_toNat d h]
  simp only [decide_eq_true_eq]
  omega

theorem natCharsAux_congr :
    ∀ n f1 f2, n < f1 → n < f2 → natCharsAux f1 n = natCharsAux f2 n := by
  intro n
  induction n using Nat.strong_induction_on with
  | _ n ih =>
    intro f1 f2 h1 h2
    cases f1 with
    | zero => omega
    | succ a =>
      cases f2 with
      | zero => omega
      | succ b =>
        show (if n < 10 then [digitChar10 n]
              else natCharsAux a (n / 10) ++ [digitChar10 (n % 10)]) =
            (if n < 10 then [digitChar10 n]
              else natCharsAux b (n / 10) ++ [digitChar10 (n % 10)])
        by_cases hn : n < 10
        · rw [if_pos hn, if_pos hn]
        · rw [if_neg hn, if_neg hn, ih (n / 10) (by omega) a b (by omega) (by omega)]

theorem natChars_eq (n : Nat) :
    natChars n =
      if n < 10 then [digitChar10 n]
      else natChars (n / 10) ++ [digitChar10 (n % 10)] := by
  unfold natChars
  show (if n < 10 then [digitChar10 n]
        else natCharsAux n (n / 10) ++ [digitChar10 (n % 10)]) = _
  by_cases hn : n < 10
  · rw [if_pos hn, if_pos hn]
  · rw [if_neg hn, if_neg hn,
        natCharsAux_congr (n / 10) n (n / 10 + 1) (by omega) (by omega)]

theorem natChars_all_digits :
    ∀ n, ∀ c ∈ natChars n, isDigitChar c = true := by
  intro n
  induction n using Nat.strong_induction_on with
  | _ n ih =>
    intro c hc
    rw [natChars_eq] at hc
    by_cases hn : n < 10
    · rw [if_pos hn] at hc
      rcases List.mem_singleton.mp hc with rfl
      exact isDigitChar_digitChar10 n hn
    · rw [if_neg hn] at hc
      rcases List.mem_append.mp hc with h | h
      · exact ih (n / 10) (by omega) c h
      · rcases List.mem_singleton.mp h with rfl
        exact isDigitChar_digitChar10 _ (by omega)

theorem natChars_ne_nil (n : Nat) : natChars n ≠ [] := by
  rw [natChars_eq]
  by_cases hn : n < 10
  · rw [if_pos hn]; simp
  · rw [if_neg hn]; simp

theorem natChars_head_digit (n : Nat) :
    ∃ c t, natChars n = c :: t ∧ isDigitChar c = true := by
  cases hh : natChars n with
  | nil => exact absurd hh (natChars_ne_nil n)
  | cons c t =>
    exact ⟨c, t, rfl, natChars_all_digits n c (hh ▸ List.mem_cons_self c t)⟩

theorem digitsVal_append_single (xs : List Char) (c : Char) :
    digitsVal (xs ++ [c]) = 10 * digitsVal xs + (c.toNat - 48) := by
  unfold digitsVal
  rw [List.foldl_append]
  rfl

theorem digitsVal_natChars : ∀ n, digitsVal (natChars n) = n := by
  intro n
  induction n using Nat.strong_induction_on with
  | _ n ih =>
    rw [natChars_eq]
    by_cases hn : n < 10
    · rw [if_pos hn]
      show digitsVal ([] ++ [digitChar10 n]) = n
      rw [digitsVal_append_single, digitChar10_toNat n hn]
      simp [digitsVal]
    · rw [if_neg hn, digitsVal_append_single, ih (n / 10) (by omega),
          digitChar10_toNat _ (by omega)]
      omega

theorem strToInt?_cons (c : Char) (ds : List Char) :
    strToInt? (c :: ds) =
      if c = '-' then
        if ds ≠ [] ∧ ds.all isDigitChar then some (-(digitsVal ds : Int)) else none
      else if c = '+' then
        if ds ≠ [] ∧ ds.all isDigitChar then some (digitsVal ds : Int) else none
      else if (c :: ds).all isDigitChar then some (digitsVal (c :: ds) : Int)
      else none := rfl

theorem strToInt?_intChars (i : Int) : strToInt? (intChars i) = some i := by
  unfold intChars
  by_cases hi : i < 0
  · rw [if_pos hi, strToInt?_cons, if_pos rfl,
        if_pos ⟨natChars_ne_nil _, List.all_eq_true.mpr (natChars_all_digits _)⟩,
        digitsVal_natChars]
    congr 1
    omega
  · rw [if_neg hi]
    obtain ⟨c, t, he, hd⟩ := natChars_head_digit i.toNat
    rw [he]
    have htn : 48 ≤ c.toNat ∧ c.toNat ≤ 57 := by
      have := hd
      unfold isDigitChar at this
      exact of_decide_eq_true this
    have hc1 : ¬(c = '-') := char_ne_of_toNat (by
      show c.toNat ≠ 45
      omega)
    have hc2 : ¬(c = '+') := char_ne_of_toNat (by
      show c.toNat ≠ 43
      omega)
    rw [strToInt?_cons, if_neg hc1, if_neg hc2,
        if_pos (by rw [← he]; exact List.all_eq_true.mpr (natChars_all_digits _)),
        ← he, digitsVal_natChars]
    congr 1
    omega

theorem intChars_chars (i : Int) :
    ∀ c ∈ intChars i, c = '-' ∨ isDigitChar c = true := by
  intro c hc
  unfold intChars at hc
  by_cases hi : i < 0
  · rw [if_pos hi] at hc
    rcases List.mem_cons.mp hc with rfl | hc
    · exact Or.inl rfl
    · exact Or.inr (natChars_all_digits _ c hc)
  · rw [if_neg hi] at hc
    exact Or.inr (natChars_all_digits _ c hc)

theorem intChars_head (i : Int) :
    ∃ c t, intChars i = c :: t ∧ (c = '-' ∨ isDigitChar c = true) := by
  unfold intChars
  by_cases hi : i < 0
  · rw [if_pos hi]
    exact ⟨'-', _, rfl, Or.inl rfl⟩
  · rw [if_neg hi]
    obtain ⟨c, t, he, hd⟩ := natChars_head_digit i.toNat
    exact ⟨c, t, he, Or.inr hd⟩

theorem idChar_not_ws {c : Char} (h : c = '-' ∨ isDigitChar c = true) :
    isPyWs c = false := by
  rcases h with rfl | h
  · rfl
  · have := of_decide_eq_true (by exact h : decide (48 ≤ c.toNat ∧ c.toNat ≤ 57) = true)
    unfold isPyWs
    simp only [decide_eq_false_iff_not]
    omega

theorem idChar_props {c : Char} (h : c = '-' ∨ isDigitChar c = true) :
    c ≠ '\t' ∧ c ≠ '\n' ∧ c ≠ '|' := by
  rcases h with rfl | h
  · exact ⟨by decide, by decide, by decide⟩
  · have := of_decide_eq_true (by exact h : decide (48 ≤ c.toNat ∧ c.toNat ≤ 57) = true)
    exact ⟨char_ne_of_toNat (by show c.toNat ≠ 9; omega),
           char_ne_of_toNat (by show c.toNat ≠ 10; omega),
           char_ne_of_toNat (by show c.toNat ≠ 124; omega)⟩

/-! ### Roundtrip lemmas: a good line parses back to its device -/

theorem pyRstrip_head_of_ne (c : Char) (t : List Char)
    (h : pyRstrip (c :: t) ≠ []) : pyRstrip (c :: t) = c :: pyRstrip t := by
  rw [pyRstrip_cons]
  by_cases hP : ((pyRstrip t).isEmpty && isPyWs c) = true
  · rw [pyRstrip_cons, if_pos hP] at h
    exact absurd rfl h
  · rw [if_neg hP]

theorem pyRstrip_decomp :
    ∀ l : List Char, ∃ ws, l = pyRstrip l ++ ws ∧ ∀ c ∈ ws, isPyWs c = true
  | [] => ⟨[], rfl, by simp⟩
  | c :: t => by
    obtain ⟨ws, hd, hws⟩ := pyRstrip_decomp t
    by_cases hP : ((pyRstrip t).isEmpty && isPyWs c) = true
    · obtain ⟨hte, hcw⟩ : (pyRstrip t).isEmpty = true ∧ isPyWs c = true := by
        simpa using hP
      refine ⟨c :: t, ?_, ?_⟩
      · rw [pyRstrip_cons, if_pos hP]
        rfl
      · intro x hx
        rcases List.mem_cons.mp hx with rfl | hx
        · exact hcw
        · have ht : t = ws := by
            rw [List.isEmpty_iff.mp hte] at hd
            simpa using hd
          exact hws x (ht ▸ hx)
    · refine ⟨ws, ?_, hws⟩
      rw [pyRstrip_cons, if_neg hP]
      show c :: t = c :: (pyRstrip t ++ ws)
      rw [← hd]

theorem ws_not_hex {c : Char} (h : isPyWs c = true) : isHexAny c = false := by
  unfold isPyWs at h
  unfold isHexAny
  have := of_decide_eq_true h
  simp only [decide_eq_false_iff_not]
  omega

theorem hexClean_append (a b : List Char) :
    hexClean (a ++ b) = hexClean a ++ hexClean b := by
  simp [hexClean, List.filter_append]

theorem hexClean_ws_nil (ws : List Char) (h : ∀ c ∈ ws, isPyWs c = true) :
    hexClean ws = [] := by
  induction ws with
  | nil => rfl
  | cons c t ih =>
    rw [hexClean_cons, ws_not_hex (h c (List.mem_cons_self c t)), if_neg (by simp)]
    exact ih (fun x hx => h x (List.mem_cons_of_mem c hx))

theorem hexClean_pyRstrip (l : List Char) :
    hexClean (pyRstrip l) = hexClean l := by
  obtain ⟨ws, hd, hws⟩ := pyRstrip_decomp l
  conv_rhs => rw [hd]
  rw [hexClean_append, hexClean_ws_nil ws hws, List.append_nil]

theorem hexClean_all (l : List Char) : (hexClean l).all isHexUpper = true := by
  rw [List.all_eq_true]
  intro c hc
  exact (List.mem_filter.mp hc).2

theorem normalize_mac_of_len12 (s : String)
    (h : (hexClean s.data).length = 12) :
    normalize_mac s = .ok (String.mk (sepPairs ':' (hexClean s.data))) := by
  rw [normalize_mac_eq, if_neg (by simp [h]), hexClean_all]
  rfl

theorem normalize_ok_parts {s mac : String} (h : normalize_mac s = .ok mac) :
    (hexClean s.data).length = 12 ∧
    mac = String.mk (sepPairs ':' (hexClean s.data)) := by
  rw [normalize_mac_eq] at h
  by_cases h12 : (hexClean s.data).length = 12
  · rw [if_neg (by simp [h12]), hexClean_all] at h
    refine ⟨h12, ?_⟩
    cases h
    rfl
  · rw [if_pos (by simp [h12])] at h
    cases h

theorem orig_has_nonws {s mac : String} (h : normalize_mac s = .ok mac) :
    ∃ c ∈ s.data, isPyWs c = false := by
  have h12 := (normalize_ok_parts h).1
  have : hexClean s.data ≠ [] := by
    intro e
    rw [e] at h12
    simp at h12
  obtain ⟨x, hx⟩ := List.exists_mem_of_ne_nil _ this
  obtain ⟨hxm, hxh⟩ := List.mem_filter.mp hx
  obtain ⟨c, hc, rfl⟩ := List.mem_map.mp hxm
  rw [isHexUpper_asciiUpper] at hxh
  refine ⟨c, hc, ?_⟩
  cases hw : isPyWs c
  · rfl
  · rw [ws_not_hex hw] at hxh
    cases hxh

theorem parseLine_pyRstrip (k : Nat) (raw : List Char) :
    parseLine k (pyRstrip raw) = parseLine k raw := by
  unfold parseLine
  rw [pyStrip_pyRstrip]

theorem parseLine_lineOf (k : Nat) (d : Device) (h : goodDev d) :
    parseLine k (lineOf d) = some (trimDev d) := by
  obtain ⟨⟨hval, hnt, hnn⟩, hot, hon, hnorm⟩ := h
  have htab_ws : ∀ c ∈ ['\t'], isPyWs c = true := by
    intro c hc
    rcases List.mem_singleton.mp hc with rfl
    decide
  have hA_line : lineOf d =
      (intChars d.id ++ '|' :: d.name.data) ++
        '\t' :: (d.original_mac.data ++ ['\t']) := by
    simp [lineOf]
  have horig_ne : pyRstrip d.original_mac.data ≠ [] :=
    pyRstrip_ne_of_mem _ (orig_has_nonws hnorm)
  have h2 : pyRstrip (d.original_mac.data ++ ['\t']) = pyRstrip d.original_mac.data :=
    pyRstrip_append_ws _ _ htab_ws
  have h3 : pyRstrip ('\t' :: (d.original_mac.data ++ ['\t'])) =
      '\t' :: pyRstrip d.original_mac.data := by
    rw [pyRstrip_cons_of_ne _ _ (h2 ▸ horig_ne), h2]
  have h4 : pyRstrip (lineOf d) =
      (intChars d.id ++ '|' :: d.name.data) ++ '\t' :: pyRstrip d.original_mac.data := by
    rw [hA_line, pyRstrip_append_of_ne _ _ (by rw [h3]; simp), h3]
  obtain ⟨c0, t0, hic, hid0⟩ := intChars_head d.id
  have h5 : pyStrip (lineOf d) =
      (intChars d.id ++ '|' :: d.name.data) ++ '\t' :: pyRstrip d.original_mac.data := by
    unfold pyStrip
    rw [h4, hic]
    show pyLstrip (c0 :: (t0 ++ '|' :: d.name.data ++
      '\t' :: pyRstrip d.original_mac.data)) = _
    rw [pyLstrip_cons_of_head _ _ (idChar_not_ws hid0)]
    simp
  have htabA : '\t' ∉ (intChars d.id ++ '|' :: d.name.data) := by
    intro hmem
    rcases List.mem_append.mp hmem with hm | hm
    · exact (idChar_props (intChars_chars _ _ hm)).1 rfl
    · rcases List.mem_cons.mp hm with he | hm
      · exact absurd he (by decide)
      · exact hnt hm
  have htabO : '\t' ∉ pyRstrip d.original_mac.data := fun hm => hot (mem_pyRstrip hm)
  have h6 : splitChar '\t' (pyStrip (lineOf d)) =
      (intChars d.id ++ '|' :: d.name.data) :: [pyRstrip d.original_mac.data] := by
    rw [h5, splitChar_append _ _ _ htabA, splitChar_not_mem _ _ htabO]
  have h7 : splitOnce '|' (intChars d.id ++ '|' :: d.name.data) =
      some (intChars d.id, d.name.data) :=
    splitOnce_append _ _ _ (fun hm => (idChar_props (intChars_chars _ _ hm)).2.2 rfl)
  have h8 : normalize_mac (String.mk (pyRstrip d.original_mac.data)) = .ok d.mac := by
    have h12 := (normalize_ok_parts hnorm).1
    have hmac := (normalize_ok_parts hnorm).2
    rw [normalize_mac_of_len12]
    · show Except.ok (String.mk (sepPairs ':' (hexClean (pyRstrip d.original_mac.data)))) = _
      rw [hexClean_pyRstrip, ← hmac]
    · show (hexClean (pyRstrip d.original_mac.data)).length = 12
      rw [hexClean_pyRstrip]
      exact h12
  have h9 : validate_device_name (String.mk d.name.data) = .ok d.name := hval
  have hempty : (pyStrip (lineOf d)).isEmpty = false := by
    rw [h5, hic]
    rfl
  unfold parseLine
  simp only [hempty, h6, h7, h8, h9, strToInt?_intChars, Bool.false_eq_true, if_false]
  rfl

theorem parseLines_cons (k : Nat) (l : List Char) (ls : List (List Char)) :
    parseLines k (l :: ls) =
      match parseLine k l with
      | some d => d :: parseLines (k + 1) ls
      | none => parseLines (k + 1) ls := rfl

theorem parseLines_map : ∀ (k : Nat) (N : List Device),
    (∀ d ∈ N, goodDev d) →
    parseLines k (N.map lineOf) = N.map trimDev
  | _, [], _ => rfl
  | k, d :: N, h => by
    rw [List.map_cons, parseLines_cons,
        parseLine_lineOf k d (h d (List.mem_cons_self d N)),
        parseLines_map (k + 1) N (fun x hx => h x (List.mem_cons_of_mem d hx))]
    rfl

theorem lineOf_head (d : Device) :
    ∃ c t, lineOf d = c :: t ∧ isPyWs c = false := by
  obtain ⟨c, t, hic, hp⟩ := intChars_head d.id
  refine ⟨c, t ++ '|' :: d.name.data ++ '\t' :: d.original_mac.data ++ ['\t'], ?_, idChar_not_ws hp⟩
  rw [lineOf, hic]
  rfl

theorem lineOf_no_newline (d : Device) (h : goodDev d) : '\n' ∉ lineOf d := by
  obtain ⟨⟨_, _, hnn⟩, _, hon, _⟩ := h
  intro hmem
  unfold lineOf at hmem
  rcases List.mem_append.mp hmem with hm | hm
  · rcases List.mem_append.mp hm with hm | hm
    · rcases List.mem_append.mp hm with hm | hm
      · exact (idChar_props (intChars_chars _ _ hm)).2.1 rfl
      · rcases List.mem_cons.mp hm with he | hm
        · exact absurd he (by decide)
        · exact hnn hm
    · rcases List.mem_cons.mp hm with he | hm
      · exact absurd he (by decide)
      · exact hon hm
  · exact absurd (List.mem_singleton.mp hm) (by decide)

theorem parse_content : ∀ (k : Nat) (ls : List (List Char)),
    (∀ l ∈ ls, (∃ c t, l = c :: t ∧ isPyWs c = false) ∧ '\n' ∉ l) →
    ls ≠ [] →
    pyStrip (List.intercalate ['\n'] ls) ≠ [] ∧
    parseLines k (splitChar '\n' (pyStrip (List.intercalate ['\n'] ls))) =
      parseLines k ls
  | _, [], _, hne => absurd rfl hne
  | k, [l], h, _ => by
    obtain ⟨⟨c, t, rfl, hcw⟩, hnl⟩ := h l (List.mem_singleton.mpr rfl)
    rw [intercalate_single]
    have h1 : pyRstrip (c :: t) = c :: pyRstrip t :=
      pyRstrip_cons_of_head c t hcw
    have h2 : pyStrip (c :: t) = c :: pyRstrip t := by
      unfold pyStrip
      rw [h1, pyLstrip_cons_of_head _ _ hcw]
    refine ⟨by rw [h2]; simp, ?_⟩
    rw [h2, ← h1, splitChar_not_mem _ _ (fun hm => hnl (mem_pyRstrip hm)),
        parseLines_cons, parseLines_cons, ← parseLine_pyRstrip k (c :: t), h1]
  | k, l :: l' :: ls, h, _ => by
    obtain ⟨⟨c, t, rfl, hcw⟩, hnl⟩ := h l (List.mem_cons_self _ _)
    obtain ⟨⟨c', t', he', hcw'⟩, _⟩ :=
      h l' (List.mem_cons_of_mem _ (List.mem_cons_self _ _))
    obtain ⟨hne', ih⟩ := parse_content (k + 1) (l' :: ls)
      (fun x hx => h x (List.mem_cons_of_mem _ hx)) (by simp)
    have hI_head : ∃ s, List.intercalate ['\n'] (l' :: ls) = c' :: s := by
      cases ls with
      | nil => exact ⟨t', by rw [intercalate_single, he']⟩
      | cons a as =>
        exact ⟨t' ++ '\n' :: List.intercalate ['\n'] (a :: as), by
          rw [intercalate_cons_cons, he']; rfl⟩
    obtain ⟨s, hI⟩ := hI_head
    have hrne : pyRstrip (List.intercalate ['\n'] (l' :: ls)) ≠ [] := by
      intro he
      apply hne'
      unfold pyStrip
      rw [he]
      rfl
    have hrI : pyRstrip (List.intercalate ['\n'] (l' :: ls)) = c' :: pyRstrip s := by
      rw [hI] at hrne ⊢
      exact pyRstrip_head_of_ne c' s hrne
    have hstripI : pyStrip (List.intercalate ['\n'] (l' :: ls)) =
        pyRstrip (List.intercalate ['\n'] (l' :: ls)) := by
      unfold pyStrip
      rw [hrI, pyLstrip_cons_of_head _ _ hcw']
    have h0 : pyRstrip ('\n' :: List.intercalate ['\n'] (l' :: ls)) =
        '\n' :: pyRstrip (List.intercalate ['\n'] (l' :: ls)) :=
      pyRstrip_cons_of_ne _ _ hrne
    have h4 : pyRstrip (List.intercalate ['\n'] ((c :: t) :: l' :: ls)) =
        (c :: t) ++ '\n' :: pyRstrip (List.intercalate ['\n'] (l' :: ls)) := by
      rw [intercalate_cons_cons, pyRstrip_append_of_ne _ _ (by rw [h0]; simp), h0]
    have h5 : pyStrip (List.intercalate ['\n'] ((c :: t) :: l' :: ls)) =
        (c :: t) ++ '\n' :: pyRstrip (List.intercalate ['\n'] (l' :: ls)) := by
      unfold pyStrip
      rw [h4]
      show pyLstrip (c :: (t ++ '\n' :: pyRstrip (List.intercalate ['\n'] (l' :: ls)))) = _
      rw [pyLstrip_cons_of_head _ _ hcw]
      rfl
    refine ⟨by rw [h5]; simp, ?_⟩
    rw [h5, splitChar_append _ _ _ hnl, parseLines_cons, parseLines_cons]
    rw [hstripI] at ih
    rw [ih]

theorem load_serialize (M : List Device) (h : ∀ d ∈ M, goodDev d) :
    load_mac_addresses { storeExists := true, store := serializeDevices M } =
      ((sortById M).filter (fun d => d.enabled)).map trimDev := by
  have hN : ∀ d ∈ (sortById M).filter (fun d => d.enabled), goodDev d := by
    intro d hd
    exact h d ((List.perm_insertionSort _ M).mem_iff.mp (List.mem_of_mem_filter hd))
  unfold load_mac_addresses serializeDevices
  dsimp only
  cases hNe : (sortById M).filter (fun d => d.enabled) with
  | nil =>
    rfl
  | cons d N' =>
    rw [hNe] at hN
    have hprops : ∀ l ∈ (d :: N').map lineOf,
        (∃ c t, l = c :: t ∧ isPyWs c = false) ∧ '\n' ∉ l := by
      intro l hl
      obtain ⟨dv, hdv, rfl⟩ := List.mem_map.mp hl
      exact ⟨lineOf_head dv, lineOf_no_newline dv (hN dv hdv)⟩
    obtain ⟨hne, hp⟩ := parse_content 1 ((d :: N').map lineOf) hprops (by simp)
    have hstrip : pyStrip ((List.intercalate ['\n'] ((d :: N').map lineOf) ++ ['\n'])) =
        pyStrip (List.intercalate ['\n'] ((d :: N').map lineOf)) := by
      unfold pyStrip
      rw [pyRstrip_append_ws _ ['\n'] (by intro c hc; rcases List.mem_singleton.mp hc with rfl; decide)]
    rw [if_neg (by decide), hstrip]
    rw [if_neg (by
      intro hEmp
      exact hne (List.isEmpty_iff.mp hEmp))]
    rw [hp, parseLines_map 1 (d :: N') hN]

theorem save_mac_addresses_fail (devices : List Device) (bk : Bool) (fs : FS)
    (h : (fs.storeExists && !bk) = true) :
    save_mac_addresses devices bk fs = (false, fs) := by
  unfold save_mac_addresses
  rw [if_pos h]

theorem save_mac_addresses_write (devices : List Device) (bk : Bool) (fs : FS)
    (h : (fs.storeExists && !bk) = false) :
    save_mac_addresses devices bk fs =
      (true, { storeExists := true, store := serializeDevices devices }) := by
  unfold save_mac_addresses
  rw [if_neg (by simp [h])]

theorem snd_ite_pair (c : Bool) (x y : Except String Device) (s : FS) :
    (if c = true then (x, s) else (y, s)).2 = s := by
  cases c
  · rfl
  · rfl

theorem dupCheck_none {m n : String} :
    ∀ {ds : List Device}, dupCheck m n ds = none →
      ∀ d ∈ ds, d.mac ≠ m ∧ lowerStr d.name ≠ lowerStr n
  | [], _, _, hd => absurd hd (by simp)
  | d :: ds, h, x, hx => by
    unfold dupCheck at h
    by_cases hm : d.mac = m
    · rw [if_pos hm] at h
      cases h
    · rw [if_neg hm] at h
      by_cases hn : lowerStr d.name = lowerStr n
      · rw [if_pos hn] at h
        cases h
      · rw [if_neg hn] at h
        rcases List.mem_cons.mp hx with rfl | hx
        · exact ⟨hm, hn⟩
        · exact dupCheck_none h x hx

theorem foldl_max_init (a : Int) (xs : List Device) :
    a ≤ xs.foldl (fun b x => max b x.id) a := by
  induction xs generalizing a with
  | nil => exact le_refl a
  | cons x xs ih =>
    exact le_trans (le_max_left a x.id) (ih (max a x.id))

theorem foldl_max_mem (a : Int) (xs : List Device) :
    ∀ d ∈ xs, d.id ≤ xs.foldl (fun b x => max b x.id) a := by
  induction xs generalizing a with
  | nil => intro d hd; cases hd
  | cons x xs ih =>
    intro d hd
    rcases List.mem_cons.mp hd with rfl | hd
    · exact le_trans (le_max_right a d.id) (foldl_max_init _ xs)
    · exact ih (max a x.id) d hd

theorem maxId_ge_mem : ∀ (L : List Device), ∀ d ∈ L, d.id ≤ maxId L
  | [], d, hd => absurd hd (by simp)
  | x :: xs, d, hd => by
    unfold maxId
    rcases List.mem_cons.mp hd with rfl | hd
    · exact foldl_max_init _ xs
    · exact foldl_max_mem _ xs d hd

theorem maxId_nonneg (L : List Device) (hpos : ∀ d ∈ L, 1 ≤ d.id) :
    0 ≤ maxId L := by
  cases L with
  | nil => exact le_refl 0
  | cons x xs =>
    exact le_trans (by linarith [hpos x (List.mem_cons_self x xs)])
      (maxId_ge_mem (x :: xs) x (List.mem_cons_self x xs))

theorem normalize_pyRstrip_ok {s mac : String} (h : normalize_mac s = .ok mac) :
    normalize_mac (String.mk (pyRstrip s.data)) = .ok mac := by
  have h12 := (normalize_ok_parts h).1
  have hmac := (normalize_ok_parts h).2
  rw [normalize_mac_of_len12]
  · show Except.ok (String.mk (sepPairs ':' (hexClean (pyRstrip s.data)))) = _
    rw [hexClean_pyRstrip, ← hmac]
  · show (hexClean (pyRstrip s.data)).length = 12
    rw [hexClean_pyRstrip]
    exact h12

theorem goodDev_trimDev (d : Device) (h : goodDev d) : goodDev (trimDev d) := by
  obtain ⟨hn, hot, hon, hnorm⟩ := h
  refine ⟨hn, ?_, ?_, normalize_pyRstrip_ok hnorm⟩
  · exact fun hm => hot (mem_pyRstrip hm)
  · exact fun hm => hon (mem_pyRstrip hm)

theorem inv_of_saved (M : List Device)
    (hgood : ∀ d ∈ M, goodDev d)
    (hid : (M.map (fun d => d.id)).Nodup)
    (hmac : (M.map (fun d => d.mac)).Nodup)
    (hname : (M.map (fun d => lowerStr d.name)).Nodup)
    (hpos : ∀ d ∈ M, 1 ≤ d.id) :
    RegistryInv { storeExists := true, store := serializeDevices M } := by
  have hL := load_serialize M hgood
  have hsub : ((sortById M).filter (fun d => d.enabled)).Sublist (sortById M) :=
    List.filter_sublist _
  have hperm := List.perm_insertionSort (fun a b : Device => a.id ≤ b.id) M
  unfold RegistryInv
  rw [hL]
  have nodup_of : ∀ {α : Type} (key : Device → α),
      (∀ x, key (trimDev x) = key x) → (M.map key).Nodup →
      ((((sortById M).filter (fun d => d.enabled)).map trimDev).map key).Nodup := by
    intro α key hkt hnd
    rw [List.map_map]
    have he : ((sortById M).filter (fun d => d.enabled)).map (key ∘ trimDev) =
        ((sortById M).filter (fun d => d.enabled)).map key :=
      List.map_congr_left (fun x _ => hkt x)
    rw [he]
    exact List.Nodup.sublist (hsub.map key) ((hperm.map key).symm.nodup hnd)
  refine ⟨nodup_of _ (fun x => rfl) hid, nodup_of _ (fun x => rfl) hmac,
          nodup_of _ (fun x => rfl) hname, ?_⟩
  intro d hd
  obtain ⟨x, hx, rfl⟩ := List.mem_map.mp hd
  have hxM : x ∈ M := hperm.mem_iff.mp (List.mem_of_mem_filter hx)
  exact ⟨hpos x hxM, goodDev_trimDev x (hgood x hxM)⟩

theorem updateFirst_append (i : Int) (dnew : Device) :
    ∀ (A : List Device) (dev : Device) (B : List Device),
      (∀ a ∈ A, a.id ≠ i) → dev.id = i →
      updateFirst i dnew (A ++ dev :: B) = A ++ dnew :: B
  | [], dev, B, _, hdev => by
    show updateFirst i dnew (dev :: B) = dnew :: B
    unfold updateFirst
    rw [if_pos hdev]
  | a :: A', dev, B, hA, hdev => by
    show updateFirst i dnew (a :: (A' ++ dev :: B)) = a :: (A' ++ dnew :: B)
    unfold updateFirst
    rw [if_neg (hA a (List.mem_cons_self a A')),
        updateFirst_append i dnew A' dev B
          (fun x hx => hA x (List.mem_cons_of_mem a hx)) hdev]

theorem find?_id_decomp {L : List Device} {i : Int} {dev : Device}
    (h : L.find? (fun d => d.id = i) = some dev) :
    dev.id = i ∧ ∃ A B, L = A ++ dev :: B ∧ ∀ a ∈ A, a.id ≠ i := by
  obtain ⟨hp, A, B, hL, hA⟩ := List.find?_eq_some.mp h
  refine ⟨by simpa using hp, A, B, hL, ?_⟩
  intro a ha
  have := hA a ha
  simpa using this

theorem keys_nodup_replace {α : Type} (key : Device → α) (A B : List Device)
    (dev dnew : Device)
    (hnod : ((A ++ dev :: B).map key).Nodup)
    (hids : ((A ++ dev :: B).map (fun d => d.id)).Nodup)
    (hkey : key dnew = key dev ∨
      ∀ d ∈ A ++ B, d.id ≠ dev.id → key d ≠ key dnew) :
    ((A ++ dnew :: B).map key).Nodup := by
  rw [List.map_append, List.map_cons, List.nodup_middle, List.nodup_cons] at hnod ⊢
  obtain ⟨hnotin, hAB⟩ := hnod
  refine ⟨?_, hAB⟩
  rcases hkey with he | hfar
  · rw [he]
    exact hnotin
  · intro hm
    rw [← List.map_append] at hm
    obtain ⟨x, hx, hxe⟩ := List.mem_map.mp hm
    have hxid : x.id ≠ dev.id := by
      rw [List.map_append, List.map_cons, List.nodup_middle,
          List.nodup_cons, ← List.map_append] at hids
      intro he
      exact hids.1 (List.mem_map.mpr ⟨x, hx, by rw [he]⟩)
    exact hfar x hx hxid hxe

theorem add_device_preserves_inv (fs : FS) (n m : String) (bk : Bool)
    (hInv : RegistryInv fs) (hn : goodNameInput n) (hm : goodMacInput m) :
    RegistryInv (add_device n m bk fs).2 := by
  obtain ⟨hids, hmacs, hnames, hprops⟩ := hInv
  unfold add_device
  dsimp only
  split
  next e hv => exact ⟨hids, hmacs, hnames, hprops⟩
  next cn hv =>
    split
    next e hNorm => exact ⟨hids, hmacs, hnames, hprops⟩
    next nm hNorm =>
      split
      next e hdup => exact ⟨hids, hmacs, hnames, hprops⟩
      next hdup =>
        rw [snd_ite_pair]
        by_cases hsv : (fs.storeExists && !bk) = true
        · rw [save_mac_addresses_fail _ _ _ hsv]
          exact ⟨hids, hmacs, hnames, hprops⟩
        · rw [save_mac_addresses_write _ _ _ (by simpa using hsv)]
          have hfar := dupCheck_none hdup
          apply inv_of_saved
          · intro d hd
            rcases List.mem_append.mp hd with hd | hd
            · exact (hprops d hd).2
            · rcases List.mem_singleton.mp hd with rfl
              exact ⟨hn cn hv, hm.1, hm.2, hNorm⟩
          · rw [List.map_append]
            rw [List.nodup_append]
            refine ⟨hids, List.nodup_singleton _, ?_⟩
            intro a ha hb
            rcases List.mem_singleton.mp hb with rfl
            obtain ⟨d, hd, hde⟩ := List.mem_map.mp ha
            have := maxId_ge_mem _ d hd
            simp only at hde
            omega
          · rw [List.map_append, List.nodup_append]
            refine ⟨hmacs, List.nodup_singleton _, ?_⟩
            intro a ha hb
            rcases List.mem_singleton.mp hb with rfl
            obtain ⟨d, hd, hde⟩ := List.mem_map.mp ha
            exact (hfar d hd).1 hde
          · rw [List.map_append, List.nodup_append]
            refine ⟨hnames, List.nodup_singleton _, ?_⟩
            intro a ha hb
            rcases List.mem_singleton.mp hb with rfl
            obtain ⟨d, hd, hde⟩ := List.mem_map.mp ha
            exact (hfar d hd).2 hde
          · intro d hd
            rcases List.mem_append.mp hd with hd | hd
            · exact (hprops d hd).1
            · rcases List.mem_singleton.mp hd with rfl
              have := maxId_nonneg (load_mac_addresses fs)
                (fun x hx => (hprops x hx).1)
              simp only
              omega

theorem inv_save_replaced (fs : FS) (bk : Bool) (i : Int) (dev d3 : Device)
    (hInv : RegistryInv fs)
    (hfind : (load_mac_addresses fs).find? (fun d => d.id = i) = some dev)
    (hid3 : d3.id = dev.id)
    (hgood3 : goodDev d3)
    (hmac3 : d3.mac = dev.mac ∨
      ∀ d ∈ load_mac_addresses fs, d.id ≠ i → d.mac ≠ d3.mac)
    (hname3 : lowerStr d3.name = lowerStr dev.name ∨
      ∀ d ∈ load_mac_addresses fs, d.id ≠ i → lowerStr d.name ≠ lowerStr d3.name) :
    RegistryInv (save_mac_addresses (updateFirst i d3 (load_mac_addresses fs)) bk fs).2 := by
  obtain ⟨hids, hmacs, hnames, hprops⟩ := hInv
  by_cases hsv : (fs.storeExists && !bk) = true
  · rw [save_mac_addresses_fail _ _ _ hsv]
    exact ⟨hids, hmacs, hnames, hprops⟩
  · rw [save_mac_addresses_write _ _ _ (by simpa using hsv)]
    obtain ⟨hdevi, A, B, hL, hA⟩ := find?_id_decomp hfind
    have hdev_mem : dev ∈ load_mac_addresses fs := List.mem_of_find?_eq_some hfind
    have hBi : ∀ b ∈ B, b.id ≠ i := by
      intro b hb he
      have := hids
      rw [hL, List.map_append, List.map_cons, List.nodup_middle, List.nodup_cons,
          ← List.map_append] at this
      exact this.1 (List.mem_map.mpr ⟨b, List.mem_append.mpr (Or.inr hb), by
        rw [he, hdevi]⟩)
    have hup : updateFirst i d3 (load_mac_addresses fs) = A ++ d3 :: B := by
      rw [hL]
      exact updateFirst_append i d3 A dev B hA hdevi
    rw [hup]
    have hmemAB : ∀ d ∈ A ++ B, d ∈ load_mac_addresses fs := by
      intro d hd
      rw [hL]
      rcases List.mem_append.mp hd with hd | hd
      · exact List.mem_append.mpr (Or.inl hd)
      · exact List.mem_append.mpr (Or.inr (List.mem_cons_of_mem dev hd))
    have hABi : ∀ d ∈ A ++ B, d.id ≠ dev.id := by
      intro d hd
      rcases List.mem_append.mp hd with hd | hd
      · exact fun he => hA d hd (he.trans hdevi)
      · exact fun he => hBi d hd (he.trans hdevi)
    apply inv_of_saved
    · intro d hd
      rw [hL] at hprops
      rcases List.mem_append.mp hd with hd | hd
      · exact (hprops d (List.mem_append.mpr (Or.inl hd))).2
      · rcases List.mem_cons.mp hd with rfl | hd
        · exact hgood3
        · exact (hprops d (List.mem_append.mpr (Or.inr (List.mem_cons_of_mem dev hd)))).2
    · exact keys_nodup_replace _ A B dev d3 (hL ▸ hids) (hL ▸ hids) (Or.inl hid3)
    · refine keys_nodup_replace _ A B dev d3 (hL ▸ hmacs) (hL ▸ hids) ?_
      rcases hmac3 with he | hfar
      · exact Or.inl he
      · exact Or.inr (fun d hd hdi => hfar d (hmemAB d hd) (fun he => hdi (he.trans hdevi.symm)) )
    · refine keys_nodup_replace _ A B dev d3 (hL ▸ hnames) (hL ▸ hids) ?_
      rcases hname3 with he | hfar
      · exact Or.inl he
      · exact Or.inr (fun d hd hdi => hfar d (hmemAB d hd) (fun he => hdi (he.trans hdevi.symm)))
    · intro d hd
      rcases List.mem_append.mp hd with hd | hd
      · exact (hprops d (hmemAB d (List.mem_append.mpr (Or.inl hd)))).1
      · rcases List.mem_cons.mp hd with rfl | hd
        · rw [hid3]
          exact (hprops dev hdev_mem).1
        · exact (hprops d (hmemAB d (List.mem_append.mpr (Or.inr hd)))).1

theorem update_device_preserves_inv (fs : FS) (i : Int) (n? m? : Option String)
    (e? : Option Bool) (bk : Bool) (hInv : RegistryInv fs)
    (hn : ∀ s, n? = some s → goodNameInput s)
    (hm : ∀ s, m? = some s → goodMacInput s) :
    RegistryInv (update_device i n? m? e? bk fs).2 := by
  unfold update_device
  dsimp only
  split
  next hfind => exact hInv
  next dev hfind =>
    have hdev_mem : dev ∈ load_mac_addresses fs := List.mem_of_find?_eq_some hfind
    have hgdev : goodDev dev := (hInv.2.2.2 dev hdev_mem).2
    split
    next e hs1 => exact hInv
    next d1 hs1 =>
      split
      next e hs2 => exact hInv
      next d2 hs2 =>
        rw [snd_ite_pair]
        have hfacts1 : d1.id = dev.id ∧ goodName d1.name ∧
            d1.mac = dev.mac ∧ d1.original_mac = dev.original_mac ∧
            (lowerStr d1.name = lowerStr dev.name ∨
              ∀ d ∈ load_mac_addresses fs, d.id ≠ i →
                lowerStr d.name ≠ lowerStr d1.name) := by
          split at hs1
          · cases hs1
            exact ⟨rfl, hgdev.1, rfl, rfl, Or.inl rfl⟩
          · rename_i ns
            split at hs1
            · cases hs1
            · rename_i cn hv
              split at hs1
              · cases hs1
              · rename_i hconf
                cases hs1
                refine ⟨rfl, hn ns rfl cn hv, rfl, rfl, Or.inr ?_⟩
                intro d hd hdi
                have hcf : ∀ x ∈ load_mac_addresses fs, ¬x.id = i →
                    ¬lowerStr x.name = lowerStr cn := by
                  simpa using hconf
                exact hcf d hd hdi
        have hfacts2 : d2.id = dev.id ∧ goodDev d2 ∧
            (d2.mac = dev.mac ∨
              ∀ d ∈ load_mac_addresses fs, d.id ≠ i → d.mac ≠ d2.mac) ∧
            (lowerStr d2.name = lowerStr dev.name ∨
              ∀ d ∈ load_mac_addresses fs, d.id ≠ i →
                lowerStr d.name ≠ lowerStr d2.name) := by
          obtain ⟨hf1, hf2, hf3, hf4, hf5⟩ := hfacts1
          split at hs2
          · cases hs2
            refine ⟨hf1, ⟨hf2, ?_, ?_, ?_⟩, Or.inl hf3, hf5⟩
            · rw [hf4]; exact hgdev.2.1
            · rw [hf4]; exact hgdev.2.2.1
            · rw [hf4, hf3]; exact hgdev.2.2.2
          · rename_i ms
            split at hs2
            · cases hs2
            · rename_i nm hN
              split at hs2
              · cases hs2
              · rename_i hconf
                cases hs2
                obtain ⟨hmt, hmn⟩ := hm ms rfl
                refine ⟨hf1, ⟨hf2, hmt, hmn, hN⟩, Or.inr ?_, hf5⟩
                intro d hd hdi
                have hcf : ∀ x ∈ load_mac_addresses fs, ¬x.id = i →
                    ¬x.mac = nm := by
                  simpa using hconf
                exact hcf d hd hdi
        obtain ⟨hg1, hg2, hg3, hg4⟩ := hfacts2
        cases e? with
        | none =>
          exact inv_save_replaced fs bk i dev d2 hInv hfind hg1 hg2 hg3 hg4
        | some b =>
          exact inv_save_replaced fs bk i dev
            { d2 with enabled := b } hInv hfind hg1
            ⟨hg2.1, hg2.2.1, hg2.2.2.1, hg2.2.2.2⟩ hg3 hg4

theorem delete_device_preserves_inv (fs : FS) (i : Int) (bk : Bool)
    (hInv : RegistryInv fs) : RegistryInv (delete_device i bk fs).2 := by
  obtain ⟨hids, hmacs, hnames, hprops⟩ := hInv
  unfold delete_device
  dsimp only
  split
  · exact ⟨hids, hmacs, hnames, hprops⟩
  · by_cases hsv : (fs.storeExists && !bk) = true
    · rw [save_mac_addresses_fail _ _ _ hsv]
      exact ⟨hids, hmacs, hnames, hprops⟩
    · rw [save_mac_addresses_write _ _ _ (by simpa using hsv)]
      apply inv_of_saved
      · exact fun d hd => (hprops d (List.mem_of_mem_filter hd)).2
      · exact List.Nodup.sublist ((List.filter_sublist _).map _) hids
      · exact List.Nodup.sublist ((List.filter_sublist _).map _) hmacs
      · exact List.Nodup.sublist ((List.filter_sublist _).map _) hnames
      · exact fun d hd => (hprops d (List.mem_of_mem_filter hd)).1

theorem runOp_preserves_inv (fs : FS) (op : RegOp) (hInv : RegistryInv fs)
    (hop : storableOp op) : RegistryInv (runOp fs op) := by
  cases op with
  | add n m bk => exact add_device_preserves_inv fs n m bk hInv hop.1 hop.2
  | update i n? m? e? bk =>
    exact update_device_preserves_inv fs i n? m? e? bk hInv hop.1 hop.2
  | del i bk => exact delete_device_preserves_inv fs i bk hInv

theorem runOps_preserves_inv : ∀ (ops : List RegOp) (fs : FS), RegistryInv fs →
    (∀ op ∈ ops, storableOp op) → RegistryInv (runOps fs ops)
  | [], _, hInv, _ => hInv
  | op :: ops, fs, hInv, hops =>
    runOps_preserves_inv ops _
      (runOp_preserves_inv fs op hInv (hops op (List.mem_cons_self _ _)))
      (fun x hx => hops x (List.mem_cons_of_mem _ hx))

theorem registry_inv_empty : RegistryInv { storeExists := true, store := "" } := by
  unfold RegistryInv
  rw [show load_mac_addresses { storeExists := true, store := "" } = [] from rfl]
  simp

/-- **C5, amended.** Starting from the empty store, after any sequence of
add/update/delete operations whose name and MAC inputs are storable (the
cleaned name is a fixed point of the validator and neither input contains
a tab or newline), the device list read back has pairwise distinct ids,
pairwise distinct normalized MACs and pairwise case-insensitively
distinct names, and all ids are positive; and on any registry satisfying
that invariant a successful add assigns the new device the id
`max(existing ids) + 1` (so 1 on an empty list), a positive integer held
by no coexisting record.  (Unrestricted, the uniqueness part is false:
see the counterexample, where cleaned names that differ only in trailing
whitespace collapse to the same name on reload.) -/
theorem registry_invariants_amended :
    (∀ ops : List RegOp, (∀ op ∈ ops, storableOp op) →
      RegistryInv (runOps { storeExists := true, store := "" } ops)) ∧
    (∀ (fs : FS) (n m : String) (bk : Bool) (d : Device) (fs' : FS),
      RegistryInv fs → add_device n m bk fs = (.ok d, fs') →
      d.id = maxId (load_mac_addresses fs) + 1 ∧ 1 ≤ d.id ∧
        ∀ d' ∈ load_mac_addresses fs, d'.id ≠ d.id) := by
  constructor
  · intro ops hops
    exact runOps_preserves_inv ops _ registry_inv_empty hops
  · intro fs n m bk d fs' hInv hadd
    have hpos : ∀ x ∈ load_mac_addresses fs, 1 ≤ x.id :=
      fun x hx => (hInv.2.2.2 x hx).1
    unfold add_device at hadd
    dsimp only at hadd
    split at hadd
    · simp at hadd
    · split at hadd
      · simp at hadd
      · split at hadd
        · simp at hadd
        · split at hadd
          · have h1 := congrArg Prod.fst hadd
            dsimp only at h1
            injection h1 with h2
            subst h2
            refine ⟨rfl, ?_, ?_⟩
            · show 1 ≤ maxId (load_mac_addresses fs) + 1
              have := maxId_nonneg (load_mac_addresses fs) hpos
              omega
            · intro d' hd' he
              replace he : d'.id = maxId (load_mac_addresses fs) + 1 := he
              have h3 := maxId_ge_mem _ d' hd'
              omega
          · simp at hadd

/-- Witness for the amended C5: one storable add from the empty store. -/
theorem registry_invariants_amended_witness :
    RegistryInv (runOps { storeExists := true, store := "" }
      [RegOp.add "Kids" "AABBCCDDEE01" true]) ∧
    ((1 : Int) =
      maxId (load_mac_addresses { storeExists := true, store := "" }) + 1 ∧
    (1 : Int) ≤ (1 : Int) ∧
    ∀ d' ∈ load_mac_addresses { storeExists := true, store := "" },
      d'.id ≠ (1 : Int)) := by
  constructor
  · apply registry_invariants_amended.1
    intro op hop
    rcases List.mem_singleton.mp hop with rfl
    refine ⟨?_, by decide, by decide⟩
    intro cn h
    have hv : validate_device_name "Kids" = .ok "Kids" := by decide
    rw [hv] at h
    injection h with h2
    subst h2
    exact ⟨by decide, by decide, by decide⟩
  · exact registry_invariants_amended.2
      { storeExists := true, store := "" } "Kids" "AABBCCDDEE01" true
      { id := 1, name := "Kids", mac := "AA:BB:CC:DD:EE:01",
        original_mac := "AABBCCDDEE01", enabled := true }
      { storeExists := true, store := "1|Kids\tAABBCCDDEE01\t\n" }
      registry_inv_empty (by decide)

theorem parseLine_enabled {k : Nat} {raw : List Char} {d : Device}
    (h : parseLine k raw = some d) : d.enabled = true := by
  unfold parseLine at h
  dsimp only at h
  split at h
  · cases h
  · split at h
    · split at h
      · cases h
      · split at h
        · cases h
        · injection h with h2
          subst h2
          rfl
    · cases h

theorem parseLines_enabled :
    ∀ {k : Nat} {ls : List (List Char)} {d : Device},
      d ∈ parseLines k ls → d.enabled = true := by
  intro k ls
  induction ls generalizing k with
  | nil => intro d hd; cases hd
  | cons l ls ih =>
    intro d hd
    rw [parseLines_cons] at hd
    cases hp : parseLine k l with
    | none =>
      rw [hp] at hd
      exact ih hd
    | some d' =>
      rw [hp] at hd
      rcases List.mem_cons.mp hd with rfl | hd
      · exact parseLine_enabled hp
      · exact ih hd

theorem load_all_enabled (fs : FS) :
    ∀ d ∈ load_mac_addresses fs, d.enabled = true := by
  intro d hd
  unfold load_mac_addresses at hd
  dsimp only at hd
  split at hd
  · cases hd
  · split at hd
    · cases hd
    · exact parseLines_enabled hd

theorem filter_cons_pos {p : Device → Bool} {s : Device} (hps : p s = true)
    (S : List Device) : List.filter p (s :: S) = s :: List.filter p S := by
  simp [List.filter_cons, hps]

theorem filter_cons_neg {p : Device → Bool} {s : Device} (hps : p s = false)
    (S : List Device) : List.filter p (s :: S) = List.filter p S := by
  simp [List.filter_cons, hps]

theorem orderedInsert_cons (x s : Device) (S : List Device) :
    List.orderedInsert (fun a b => a.id ≤ b.id) x (s :: S) =
      if x.id ≤ s.id then x :: s :: S
      else s :: List.orderedInsert (fun a b => a.id ≤ b.id) x S := rfl

theorem orderedInsert_all (x : Device) :
    ∀ l : List Device, (∀ y ∈ l, x.id ≤ y.id) →
      List.orderedInsert (fun a b => a.id ≤ b.id) x l = x :: l
  | [], _ => rfl
  | z :: l, h => by
    rw [orderedInsert_cons, if_pos (h z (List.mem_cons_self z l))]

theorem filter_orderedInsert_neg (p : Device → Bool) (x : Device)
    (hp : p x = false) :
    ∀ S : List Device,
      (List.orderedInsert (fun a b => a.id ≤ b.id) x S).filter p = S.filter p
  | [] => by
    show List.filter p [x] = List.filter p []
    rw [filter_cons_neg hp]
  | s :: S' => by
    rw [orderedInsert_cons]
    by_cases hr : x.id ≤ s.id
    · rw [if_pos hr, filter_cons_neg hp]
    · rw [if_neg hr]
      cases hps : p s
      · rw [filter_cons_neg hps, filter_cons_neg hps,
            filter_orderedInsert_neg p x hp S']
      · rw [filter_cons_pos hps, filter_cons_pos hps,
            filter_orderedInsert_neg p x hp S']

theorem filter_orderedInsert_pos (p : Device → Bool) (x : Device)
    (hp : p x = true) :
    ∀ S : List Device, S.Sorted (fun a b : Device => a.id ≤ b.id) →
      (List.orderedInsert (fun a b => a.id ≤ b.id) x S).filter p =
        List.orderedInsert (fun a b => a.id ≤ b.id) x (S.filter p)
  | [], _ => by
    show List.filter p [x] = [x]
    rw [filter_cons_pos hp]
    rfl
  | s :: S', hsort => by
    have hhead := (List.sorted_cons.mp hsort).1
    have hsort' := (List.sorted_cons.mp hsort).2
    rw [orderedInsert_cons]
    by_cases hr : x.id ≤ s.id
    · rw [if_pos hr, filter_cons_pos hp]
      cases hps : p s
      · rw [filter_cons_neg hps,
            orderedInsert_all x (S'.filter p) (fun y hy =>
              le_trans hr (hhead y (List.mem_of_mem_filter hy)))]
      · rw [filter_cons_pos hps, orderedInsert_cons, if_pos hr]
    · rw [if_neg hr]
      cases hps : p s
      · rw [filter_cons_neg hps, filter_cons_neg hps,
            filter_orderedInsert_pos p x hp S' hsort']
      · rw [filter_cons_pos hps, filter_cons_pos hps,
            filter_orderedInsert_pos p x hp S' hsort', orderedInsert_cons,
            if_neg hr]

theorem sortById_filter_comm (p : Device → Bool) :
    ∀ M : List Device, (sortById M).filter p = sortById (M.filter p)
  | [] => rfl
  | m :: M' => by
    show (List.orderedInsert _ m (sortById M')).filter p = _
    cases hpm : p m
    · rw [filter_orderedInsert_neg p m hpm, sortById_filter_comm p M',
          filter_cons_neg hpm]
    · have hs : (sortById M').Sorted (fun a b : Device => a.id ≤ b.id) :=
        List.sorted_insertionSort _ M'
      rw [filter_orderedInsert_pos p m hpm _ hs, sortById_filter_comm p M',
          filter_cons_pos hpm]
      rfl

theorem nodup_ids_right {L A B : List Device} {dev : Device}
    (hids : (L.map (fun d => d.id)).Nodup) (hL : L = A ++ dev :: B) :
    ∀ b ∈ B, b.id ≠ dev.id := by
  subst hL
  rw [List.map_append, List.map_cons, List.nodup_middle, List.nodup_cons,
      ← List.map_append] at hids
  intro b hb he
  exact hids.1 (List.mem_map.mpr ⟨b, List.mem_append.mpr (Or.inr hb), he⟩)

theorem update_disable_closed (fs : FS) (i : Int) (dev : Device)
    (hfind : (load_mac_addresses fs).find? (fun d => d.id = i) = some dev) :
    update_device i none none (some false) true fs =
      (.ok { dev with enabled := false },
       { storeExists := true,
         store := serializeDevices
           (updateFirst i { dev with enabled := false }
             (load_mac_addresses fs)) }) := by
  unfold update_device
  dsimp only
  rw [hfind]
  dsimp only
  rw [save_mac_addresses_write _ _ _ (by simp)]
  rfl

/-- **C10, amended.** Every device record returned by any registry read
(`get_all_devices`, `get_device`, `get_enabled_devices`) has
`enabled = true`, because the loader marks every parsed line enabled and
saves write only enabled records.  On a registry satisfying the
maintained invariant (in particular, no two records share an id),
`update_device id enabled:=false` with a successful save is
observationally equivalent to `delete_device id`: the two resulting
stores are identical and `get_device id` afterwards returns nothing.
(Unrestricted, the equivalence is false: with duplicate ids the disable
touches only the first matching record while the delete removes all of
them — see the counterexample.) -/
theorem reads_enabled_and_disable_equals_delete :
    (∀ fs : FS,
      (∀ d ∈ get_all_devices fs, d.enabled = true) ∧
      (∀ (i : Int) (d : Device), get_device i fs = some d → d.enabled = true) ∧
      (∀ d ∈ get_enabled_devices fs, d.enabled = true)) ∧
    (∀ (fs : FS) (i : Int) (dev : Device), RegistryInv fs →
      (load_mac_addresses fs).find? (fun d => d.id = i) = some dev →
      (update_device i none none (some false) true fs).2 =
        (delete_device i true fs).2 ∧
      get_device i (update_device i none none (some false) true fs).2 = none) := by
  constructor
  · intro fs
    refine ⟨load_all_enabled fs, ?_, ?_⟩
    · intro i d h
      exact load_all_enabled fs d (List.mem_of_find?_eq_some h)
    · intro d hd
      exact load_all_enabled fs d (List.mem_of_mem_filter hd)
  · intro fs i dev hInv hfind
    obtain ⟨hdevi, A, B, hL, hA⟩ := find?_id_decomp hfind
    have hdev_mem : dev ∈ load_mac_addresses fs := List.mem_of_find?_eq_some hfind
    have hBi : ∀ b ∈ B, b.id ≠ i := by
      intro b hb he
      exact nodup_ids_right hInv.1 hL b hb (he.trans hdevi.symm)
    have hupdF : updateFirst i { dev with enabled := false }
        (load_mac_addresses fs) = A ++ { dev with enabled := false } :: B := by
      rw [hL]
      exact updateFirst_append i _ A dev B hA hdevi
    have hrem : (load_mac_addresses fs).filter (fun d => !(d.id = i)) = A ++ B := by
      rw [hL, List.filter_append]
      rw [filter_cons_neg (by simp [hdevi]) B]
      rw [List.filter_eq_self.mpr (fun a ha => by simp [hA a ha]),
          List.filter_eq_self.mpr (fun b hb => by simp [hBi b hb])]
    have hserial : serializeDevices (A ++ { dev with enabled := false } :: B) =
        serializeDevices (A ++ B) := by
      unfold serializeDevices
      have hf : List.filter (fun d => d.enabled)
          (A ++ { dev with enabled := false } :: B) =
          List.filter (fun d => d.enabled) (A ++ B) := by
        rw [List.filter_append, List.filter_append,
            filter_cons_neg (show Device.enabled { dev with enabled := false } = false from rfl) B]
      rw [sortById_filter_comm, sortById_filter_comm, hf]
    have hupd := update_disable_closed fs i dev hfind
    have hdel : delete_device i true fs =
        (.ok true, { storeExists := true, store := serializeDevices (A ++ B) }) := by
      unfold delete_device
      dsimp only
      rw [hrem]
      rw [if_neg (by
        rw [hL]
        simp [List.length_append])]
      rw [save_mac_addresses_write _ _ _ (by simp)]
    constructor
    · rw [hupd, hdel]
      dsimp only
      rw [hupdF, hserial]
    · rw [hupd]
      dsimp only
      rw [hupdF]
      unfold get_device
      have hgood : ∀ d ∈ A ++ { dev with enabled := false } :: B, goodDev d := by
        intro d hd
        have hgdev := (hInv.2.2.2 dev hdev_mem).2
        rcases List.mem_append.mp hd with hd | hd
        · exact (hInv.2.2.2 d (by rw [hL]; exact List.mem_append.mpr (Or.inl hd))).2
        · rcases List.mem_cons.mp hd with rfl | hd
          · exact ⟨hgdev.1, hgdev.2.1, hgdev.2.2.1, hgdev.2.2.2⟩
          · exact (hInv.2.2.2 d (by
              rw [hL]
              exact List.mem_append.mpr (Or.inr (List.mem_cons_of_mem dev hd)))).2
      rw [load_serialize _ hgood]
      rw [List.find?_eq_none]
      intro x hx
      obtain ⟨y, hy, rfl⟩ := List.mem_map.mp hx
      have hymem := List.mem_of_mem_filter hy
      have hyen : y.enabled = true := (List.mem_filter.mp hy).2
      have hyAB : y ∈ A ++ B := by
        have hy2 := (List.perm_insertionSort
          (fun a b : Device => a.id ≤ b.id) _).mem_iff.mp hymem
        rcases List.mem_append.mp hy2 with h | h
        · exact List.mem_append.mpr (Or.inl h)
        · rcases List.mem_cons.mp h with rfl | h
          · simp at hyen
          · exact List.mem_append.mpr (Or.inr h)
      simp only [decide_eq_true_eq]
      show ¬((trimDev y).id = i)
      have : (trimDev y).id = y.id := rfl
      rw [this]
      rcases List.mem_append.mp hyAB with h | h
      · exact hA y h
      · exact hBi y h

/-- Witness for the amended C10 on a concrete two-device registry. -/
theorem reads_enabled_and_disable_equals_delete_witness :
    (∀ d ∈ get_all_devices
      { storeExists := true,
        store := "1|Kids\tAABBCCDDEE01\t\n2|Tab\tAABBCCDDEE02\t\n" },
      d.enabled = true) ∧
    ((update_device 1 none none (some false) true
        { storeExists := true,
          store := "1|Kids\tAABBCCDDEE01\t\n2|Tab\tAABBCCDDEE02\t\n" }).2 =
      (delete_device 1 true
        { storeExists := true,
          store := "1|Kids\tAABBCCDDEE01\t\n2|Tab\tAABBCCDDEE02\t\n" }).2 ∧
    get_device 1 (update_device 1 none none (some false) true
        { storeExists := true,
          store := "1|Kids\tAABBCCDDEE01\t\n2|Tab\tAABBCCDDEE02\t\n" }).2 = none) :=
  ⟨(reads_enabled_and_disable_equals_delete.1 _).1,
   reads_enabled_and_disable_equals_delete.2
    { storeExists := true,
      store := "1|Kids\tAABBCCDDEE01\t\n2|Tab\tAABBCCDDEE02\t\n" } 1
    { id := 1, name := "Kids", mac := "AA:BB:CC:DD:EE:01",
      original_mac := "AABBCCDDEE01", enabled := true }
    (by unfold RegistryInv goodDev goodName; decide) (by decide)⟩

/-! ### C2: backup failure during save -/

/-- **C2, counterexample.** On a store that exists, a failed backup copy
makes `save_mac_addresses` return failure with the store unwritten — the
claim says the write should still happen and the save report success. -/
theorem save_backup_failure_counterexample :
    save_mac_addresses
        [{ id := 1, name := "a", mac := "AA:BB:CC:DD:EE:01",
           original_mac := "AABBCCDDEE01", enabled := true }]
        false { storeExists := true, store := "old" } =
      (false, { storeExists := true, store := "old" }) ∧
    serializeDevices
        [{ id := 1, name := "a", mac := "AA:BB:CC:DD:EE:01",
           original_mac := "AABBCCDDEE01", enabled := true }] ≠ "old" := by
  constructor
  · rfl
  · decide

/-- **C2, amended.** When the store file exists and the backup copy step
fails, `save_mac_addresses` aborts: it reports failure and leaves the
store file unchanged (the exception raised while writing the backup is
caught by the `try/except` around the whole save, skipping the write). -/
theorem save_backup_failure_blocks_write (devices : List Device) (fs : FS)
    (h : fs.storeExists = true) :
    save_mac_addresses devices false fs = (false, fs) := by
  unfold save_mac_addresses
  rw [if_pos (by simp [h])]

/-- Witness for the amended C2 at a concrete store and device list. -/
theorem save_backup_failure_blocks_write_witness :
    FS.storeExists { storeExists := true, store := "old" } = true ∧
    save_mac_addresses [] false { storeExists := true, store := "old" } =
      (false, { storeExists := true, store := "old" }) :=
  ⟨rfl, save_backup_failure_blocks_write [] _ rfl⟩

/-! ### C3: duplicate rejection in `add_device` -/

theorem dupCheck_some {m n : String} :
    ∀ {ds : List Device},
      (∃ d ∈ ds, d.mac = m ∨ lowerStr d.name = lowerStr n) →
      ∃ e, dupCheck m n ds = some e
  | [], h => absurd h (by simp)
  | d :: ds, h => by
    unfold dupCheck
    by_cases hm : d.mac = m
    · exact ⟨_, by rw [if_pos hm]⟩
    · rw [if_neg hm]
      by_cases hn : lowerStr d.name = lowerStr n
      · exact ⟨_, by rw [if_pos hn]⟩
      · rw [if_neg hn]
        obtain ⟨d', hd', hcase⟩ := h
        rcases List.mem_cons.mp hd' with rfl | hmem
        · rcases hcase with h1 | h1 <;> [exact absurd h1 hm; exact absurd h1 hn]
        · exact dupCheck_some ⟨d', hmem, hcase⟩

/-- **C3.** Whenever the inputs to `add_device` validate but the
normalized MAC or the cleaned name coincides (case-insensitively) with an
existing device's, `add_device` fails and the persisted store is left
unchanged — no device is added and no save is attempted. -/
theorem add_device_duplicate_rejected (fs : FS) (name mac : String)
    (clean_name normalized_mac : String) (bk : Bool)
    (hn : validate_device_name name = .ok clean_name)
    (hm : normalize_mac mac = .ok normalized_mac)
    (hdup : ∃ d ∈ load_mac_addresses fs,
      d.mac = normalized_mac ∨ lowerStr d.name = lowerStr clean_name) :
    (∃ e, (add_device name mac bk fs).1 = .error e) ∧
    (add_device name mac bk fs).2 = fs := by
  obtain ⟨e, he⟩ := dupCheck_some hdup
  unfold add_device
  rw [hn, hm]
  dsimp only
  rw [he]
  exact ⟨⟨e, rfl⟩, rfl⟩

/-- Witness for C3: adding a second device with the MAC of an existing
one fails and leaves the store untouched. -/
theorem add_device_duplicate_rejected_witness :
    validate_device_name "Other" = .ok "Other" ∧
    normalize_mac "AA:BB:CC:DD:EE:01" = .ok "AA:BB:CC:DD:EE:01" ∧
    (∃ d ∈ load_mac_addresses
        { storeExists := true, store := "1|Kids\tAABBCCDDEE01\t\n" },
      d.mac = "AA:BB:CC:DD:EE:01" ∨ lowerStr d.name = lowerStr "Other") ∧
    (∃ e, (add_device "Other" "AA:BB:CC:DD:EE:01" true
        { storeExists := true, store := "1|Kids\tAABBCCDDEE01\t\n" }).1 = .error e) ∧
    (add_device "Other" "AA:BB:CC:DD:EE:01" true
        { storeExists := true, store := "1|Kids\tAABBCCDDEE01\t\n" }).2 =
      { storeExists := true, store := "1|Kids\tAABBCCDDEE01\t\n" } := by
  refine ⟨by decide, by decide, by decide, ?_⟩
  exact add_device_duplicate_rejected _ _ _ "Other" "AA:BB:CC:DD:EE:01" true
    (by decide) (by decide) (by decide)

/-! ### C9: self-MAC update versus conflicting-MAC update -/

theorem save_mac_addresses_backupOk (devices : List Device) (fs : FS) :
    save_mac_addresses devices true fs =
      (true, { storeExists := true, store := serializeDevices devices }) := by
  unfold save_mac_addresses
  simp

/-- **C9.** For a registry whose devices carry pairwise distinct MACs,
updating a present device's MAC to (a string normalizing to) its own
current MAC succeeds — no false self-conflict — while updating it to a
different device's MAC fails with the duplicate-MAC error and leaves the
store unchanged. -/
theorem update_device_mac_self_vs_conflict :
    (∀ (fs : FS) (i : Int) (X : String) (d : Device),
      (load_mac_addresses fs).Pairwise (fun a b => a.mac ≠ b.mac) →
      (load_mac_addresses fs).find? (fun x => decide (x.id = i)) = some d →
      normalize_mac X = .ok d.mac →
      (update_device i none (some X) none true fs).1 =
        .ok { d with original_mac := X }) ∧
    (∀ (fs : FS) (i : Int) (X : String) (d d' : Device),
      (load_mac_addresses fs).find? (fun x => decide (x.id = i)) = some d →
      d' ∈ load_mac_addresses fs → d'.id ≠ i →
      normalize_mac X = .ok d'.mac →
      (update_device i none (some X) none true fs).1 =
          .error ("MAC address " ++ d'.mac ++ " already exists") ∧
        (update_device i none (some X) none true fs).2 = fs) := by
  constructor
  · intro fs i X d hpw hfind hX
    have hdmem : d ∈ load_mac_addresses fs := List.mem_of_find?_eq_some hfind
    have hdid : d.id = i := by
      have := List.find?_some hfind
      simpa using this
    have hconf : (load_mac_addresses fs).any
        (fun x => x.id ≠ i && x.mac = d.mac) = false := by
      rw [List.any_eq_false]
      intro x hx
      simp only [Bool.and_eq_true, decide_eq_true_eq, not_and]
      intro hxi hxm
      rcases eq_or_ne x d with rfl | hne
      · exact hxi hdid
      · exact absurd hxm (List.Pairwise.forall
          (fun a b h => (h ∘ Eq.symm : b.mac = a.mac → False)) hpw hx hdmem hne)
    unfold update_device
    dsimp only
    rw [hfind]
    dsimp only
    rw [hX]
    dsimp only
    rw [hconf]
    simp [save_mac_addresses_backupOk]
  · intro fs i X d d' hfind hmem hid hX
    have hconf : (load_mac_addresses fs).any
        (fun x => x.id ≠ i && x.mac = d'.mac) = true := by
      rw [List.any_eq_true]
      exact ⟨d', hmem, by simp [hid]⟩
    unfold update_device
    dsimp only
    rw [hfind]
    dsimp only
    rw [hX]
    dsimp only
    rw [hconf]
    simp

/-- Witness for C9 on a concrete two-device registry: updating device 1
to its own MAC succeeds; updating it to device 2's MAC fails. -/
theorem update_device_mac_self_vs_conflict_witness :
    (update_device 1 none (some "AA:BB:CC:DD:EE:01") none true
        { storeExists := true,
          store := "1|Kids\tAABBCCDDEE01\t\n2|Tab\tAABBCCDDEE02\t\n" }).1 =
      .ok { id := 1, name := "Kids", mac := "AA:BB:CC:DD:EE:01",
            original_mac := "AA:BB:CC:DD:EE:01", enabled := true } ∧
    (update_device 1 none (some "AA:BB:CC:DD:EE:02") none true
        { storeExists := true,
          store := "1|Kids\tAABBCCDDEE01\t\n2|Tab\tAABBCCDDEE02\t\n" }).1 =
      .error "MAC address AA:BB:CC:DD:EE:02 already exists" := by
  constructor
  · exact update_device_mac_self_vs_conflict.1 _ 1 _
      { id := 1, name := "Kids", mac := "AA:BB:CC:DD:EE:01",
        original_mac := "AABBCCDDEE01", enabled := true }
      (by decide) (by decide) (by decide)
  · exact (update_device_mac_self_vs_conflict.2 _ 1 _
      { id := 1, name := "Kids", mac := "AA:BB:CC:DD:EE:01",
        original_mac := "AABBCCDDEE01", enabled := true }
      { id := 2, name := "Tab", mac := "AA:BB:CC:DD:EE:02",
        original_mac := "AABBCCDDEE02", enabled := true }
      (by decide) (by decide) (by decide) (by decide)).1

/-! ### C5 and C10: counterexamples -/

/-- **C5, counterexample.** The operation sequence
`add "a !" …; add "a  !" …` from the empty store leaves the registry with
two devices both reading back with the name `"a"`: the store keeps the
cleaned names `"a "` and `"a  "` (trailing spaces survive cleaning), the
loader re-strips them to `"a"`, and the duplicate check at add time
compared the unstripped in-memory names, so case-insensitive name
uniqueness of the read-back list is violated. -/
theorem registry_name_uniqueness_counterexample :
    ¬ (((load_mac_addresses
          (add_device "a  !" "AABBCCDDEE02" true
            (add_device "a !" "AABBCCDDEE01" true
              { storeExists := true, store := "" }).2).2).map
        (fun d => lowerStr d.name)).Nodup) := by decide

/-- **C10, counterexample.** On a store holding two lines with the same
id 4, disabling id 4 removes only the first matching record while
deleting id 4 removes both, so the two resulting stores differ and
`get_device 4` still finds a record after the disable. -/
theorem disable_delete_equivalence_counterexample :
    get_device 4 (update_device 4 none none (some false) true
        { storeExists := true,
          store := "4|a\tAABBCCDDEE01\t\n4|b\tAABBCCDDEE02\t\n" }).2 ≠
      get_device 4 (delete_device 4 true
        { storeExists := true,
          store := "4|a\tAABBCCDDEE01\t\n4|b\tAABBCCDDEE02\t\n" }).2 ∧
    get_device 4 (update_device 4 none none (some false) true
        { storeExists := true,
          store := "4|a\tAABBCCDDEE01\t\n4|b\tAABBCCDDEE02\t\n" }).2 ≠ none := by
  constructor
  · decide
  · decide

/-- Witness for C4 at the concrete address `AA-BB-CC-DD-EE-FF` /
`AABBCCDDEEFF` / `aa:bb:cc:dd:ee:ff` and the failing raw string `"xyz"`. -/
theorem normalize_mac_formats_and_failure_witness :
    normalize_mac (bareUpper [10, 10, 11, 11, 12, 12, 13, 13, 14, 14, 15, 15]) =
        .ok (canonicalMac [10, 10, 11, 11, 12, 12, 13, 13, 14, 14, 15, 15]) ∧
    ((∃ e, normalize_mac "xyz" = .error e) ↔
      ("xyz".data.filter isHexAny).length ≠ 12) :=
  ⟨(normalize_mac_formats_and_failure.1
      [10, 10, 11, 11, 12, 12, 13, 13, 14, 14, 15, 15]
      (by decide) (by decide)).1,
   normalize_mac_formats_and_failure.2 "xyz"⟩
/-! ### C1: the reload chain of the apply stage -/

/-- C1: once the new document has been pushed (scp and mv succeeded),
the apply stage attempts, in order, the configd restart, the filter
reload, the firewall-reconfigure script and — exactly when the latter
fails — the alternate script; the configd and filter-reload outcomes
never abort the pass, and the stage fails iff both scripts fail. -/
theorem apply_config_xml_reload_chain (newDoc : Elem) (env : RemoteEnv) (r : Remote)
    (hscp : env.scpOk = true) (hmv : env.mvOk = true) :
    (apply_config_xml newDoc env r).1 = (env.fw1Ok || env.fw2Ok) ∧
    (apply_config_xml newDoc env r).2.2 =
      [RemoteOp.scpConfig, RemoteOp.mvConfig, RemoteOp.restartConfigd,
       RemoteOp.filterReload, RemoteOp.configureFirewall] ++
      (if env.fw1Ok then [] else [RemoteOp.filterConfigure]) := by
  unfold apply_config_xml
  rw [hscp, hmv]
  cases h1 : env.fw1Ok <;> cases h2 : env.fw2Ok <;> simp

theorem apply_config_xml_reload_chain_witness :
    (apply_config_xml (.mk "opnsense" [] none [])
        ⟨true, true, true, true, false, false, false, true⟩
        ⟨.mk "opnsense" [] none []⟩).1 = (false || true) ∧
    (apply_config_xml (.mk "opnsense" [] none [])
        ⟨true, true, true, true, false, false, false, true⟩
        ⟨.mk "opnsense" [] none []⟩).2.2 =
      [RemoteOp.scpConfig, RemoteOp.mvConfig, RemoteOp.restartConfigd,
       RemoteOp.filterReload, RemoteOp.configureFirewall] ++
      (if false then [] else [RemoteOp.filterConfigure]) :=
  apply_config_xml_reload_chain (.mk "opnsense" [] none [])
    ⟨true, true, true, true, false, false, false, true⟩
    ⟨.mk "opnsense" [] none []⟩ rfl rfl

/-! ### C6: empty enabled-device set short-circuits the sync -/

/-- C6: with no enabled devices in the registry, the sync pass fails
immediately: the remote state is untouched and the operation trace is
empty — no backup, fetch, modification or push is attempted. -/
theorem sync_no_enabled_devices_noop (an now uuid : String) (env : RemoteEnv)
    (fs : FS) (r : Remote) (h : get_enabled_devices fs = []) :
    create_or_update_mac_alias an now uuid env fs r = (false, r, []) := by
  unfold create_or_update_mac_alias
  rw [h]
  rfl

theorem sync_no_enabled_devices_noop_witness :
    create_or_update_mac_alias "ParentalControlMACs" "2025-01-01" "u1"
      ⟨true, true, true, true, true, true, true, true⟩
      { storeExists := false, store := "" }
      ⟨.mk "opnsense" [] none []⟩ =
      (false, ⟨.mk "opnsense" [] none []⟩, []) :=
  sync_no_enabled_devices_noop "ParentalControlMACs" "2025-01-01" "u1"
    ⟨true, true, true, true, true, true, true, true⟩
    { storeExists := false, store := "" }
    ⟨.mk "opnsense" [] none []⟩ rfl

/-! ### Element-tree helper lemmas -/

theorem listModify_append {α : Type} (f : α → α) (A : List α) (x : α) (B : List α) :
    listModify f A.length (A ++ x :: B) = A ++ f x :: B := by
  induction A with
  | nil => rfl
  | cons a as ih => simpa [listModify] using ih

theorem modifyAtChildren_append (f : Elem → Elem) (p : List Nat) (A : List Elem)
    (x : Elem) (B : List Elem) :
    modifyAtChildren f A.length p (A ++ x :: B) = A ++ modifyAt f x p :: B := by
  induction A with
  | nil => rfl
  | cons a as ih => simpa [modifyAtChildren] using ih

theorem get?_append_length {α : Type} (A : List α) (x : α) (B : List α) :
    (A ++ x :: B).get? A.length = some x := by
  induction A with
  | nil => rfl
  | cons a as ih => simpa using ih

theorem find?_first {α : Type} (p : α → Bool) (A : List α) (x : α) (B : List α)
    (hA : ∀ y ∈ A, p y = false) (hx : p x = true) :
    (A ++ x :: B).find? p = some x := by
  induction A with
  | nil => simpa using List.find?_cons_of_pos B hx
  | cons a as ih =>
    have ha : p a = false := hA a (by simp)
    rw [List.cons_append, List.find?_cons_of_neg _ (by simp [ha])]
    exact ih (fun y hy => hA y (by simp [hy]))

theorem findIdx?_first {α : Type} (p : α → Bool) (A : List α) (x : α) (B : List α)
    (hA : ∀ y ∈ A, p y = false) (hx : p x = true) :
    (A ++ x :: B).findIdx? p = some A.length := by
  rw [List.findIdx?_append, List.findIdx?_eq_none_iff.mpr hA]
  rw [List.findIdx?_cons, if_pos hx]
  simp

theorem findIdx?_decomp {α : Type} (p : α → Bool) :
    ∀ (l : List α) (i : Nat), l.findIdx? p = some i →
      ∃ A x B, l = A ++ x :: B ∧ A.length = i ∧ p x = true ∧ ∀ y ∈ A, p y = false := by
  intro l
  induction l with
  | nil => intro i h; simp [List.findIdx?] at h
  | cons a as ih =>
    intro i h
    rw [List.findIdx?_cons] at h
    by_cases ha : p a = true
    · rw [if_pos ha] at h
      injection h with h2
      exact ⟨[], a, as, by simp, h2, ha, by simp⟩
    · rw [if_neg ha] at h
      rw [show (1 : Nat) = 0 + 1 from rfl, List.findIdx?_succ] at h
      obtain ⟨j, hj, hji⟩ := Option.map_eq_some'.mp h
      obtain ⟨A, x, B, hl, hlen, hx, hA⟩ := ih j hj
      refine ⟨a :: A, x, B, by simp [hl], by simp [hlen, hji], hx, ?_⟩
      intro y hy
      rcases List.mem_cons.mp hy with h1 | h2
      · subst h1; exact Bool.not_eq_true _ ▸ (by simpa using ha)
      · exact hA y h2

theorem modifyAt_id_of_getAt (f : Elem → Elem) :
    ∀ (p : List Nat) (e x : Elem), getAt e p = some x → f x = x → modifyAt f e p = e := by
  intro p
  induction p with
  | nil =>
    intro e x hg hf
    rw [getAt] at hg
    injection hg with hg
    subst hg
    rw [modifyAt, hf]
  | cons i q ih =>
    intro e x hg hf
    obtain ⟨t, a, xx, cs⟩ := e
    rw [getAt] at hg
    dsimp only [Elem.children] at hg
    cases hc : cs.get? i with
    | none => rw [hc] at hg; exact absurd hg (by simp)
    | some c =>
      rw [hc] at hg
      dsimp only at hg
      have hrec : modifyAt f c q = c := ih c x hg hf
      rw [modifyAt]
      have aux : ∀ (ds : List Elem) (j : Nat) (d : Elem), ds.get? j = some d →
          modifyAt f d q = d → modifyAtChildren f j q ds = ds := by
        intro ds
        induction ds with
        | nil => intro j d h; simp at h
        | cons d0 ds0 ihd =>
          intro j d h hid
          cases j with
          | zero =>
            rw [List.get?] at h
            injection h with h
            subst h
            rw [modifyAtChildren, hid]
          | succ n =>
            rw [List.get?_cons_succ] at h
            rw [modifyAtChildren, ihd n d h hid]
      rw [aux cs i c hc hrec]

theorem setDisabled_tag (v : String) (rule : Elem) :
    (setDisabled v rule).tag = rule.tag := by
  obtain ⟨rt, ra, rx, rcs⟩ := rule
  rw [setDisabled]
  split
  · rfl
  · rfl

theorem find?_congr_mid (p : Elem → Bool) (A : List Elem) (x x' : Elem)
    (B : List Elem) (hx : p x = false) (hx' : p x' = false) :
    (A ++ x :: B).find? p = (A ++ x' :: B).find? p := by
  rw [List.find?_append, List.find?_append,
    List.find?_cons_of_neg _ (by simp [hx]), List.find?_cons_of_neg _ (by simp [hx'])]

theorem findChild_setDisabled_ne (v : String) (rule : Elem) (tg : String)
    (hne : tg ≠ "disabled") :
    Elem.findChild tg (setDisabled v rule) = Elem.findChild tg rule := by
  have hds : ("disabled" : String) ≠ tg := Ne.symm hne
  obtain ⟨rt, ra, rx, rcs⟩ := rule
  rw [setDisabled]
  cases hidx : (Elem.children ⟨rt, ra, rx, rcs⟩).findIdx? (fun c => c.tag = "disabled") with
  | some k =>
    dsimp only [Elem.children] at hidx
    obtain ⟨A, d, B, hl, hlen, hd, hA⟩ := findIdx?_decomp _ rcs k hidx
    subst hl; subst hlen
    rw [Elem.findChild, Elem.findChild]
    dsimp only [Elem.children]
    rw [listModify_append]
    have hdt : d.tag = "disabled" := by simpa using hd
    obtain ⟨dt, da, dx, dcs⟩ := d
    dsimp only [Elem.tag] at hdt
    subst hdt
    apply find?_congr_mid
    · simp [Elem.tag, hds]
    · simp [Elem.tag, hds]
  | none =>
    rw [Elem.findChild, Elem.findChild]
    dsimp only [Elem.children, appendChild]
    rw [List.find?_append]
    rw [List.find?_cons_of_neg _ (by simp [Elem.tag, hds]), List.find?_nil, Option.or_none]

theorem ruleMatches_setDisabled (v : String) (rule : Elem) :
    ruleMatches (setDisabled v rule) = ruleMatches rule := by
  rw [ruleMatches, ruleMatches, setDisabled_tag,
    findChild_setDisabled_ne v rule "descr" (by decide)]

theorem setDisabled_disabled_text (v : String) (rule : Elem) :
    ∃ d, Elem.findChild "disabled" (setDisabled v rule) = some d ∧ d.text = some v := by
  obtain ⟨rt, ra, rx, rcs⟩ := rule
  rw [setDisabled]
  cases hidx : (Elem.children ⟨rt, ra, rx, rcs⟩).findIdx? (fun c => c.tag = "disabled") with
  | some k =>
    dsimp only [Elem.children] at hidx
    obtain ⟨A, d, B, hl, hlen, hd, hA⟩ := findIdx?_decomp _ rcs k hidx
    subst hl; subst hlen
    obtain ⟨dt, da, dx, dcs⟩ := d
    have hdt : dt = "disabled" := by simpa [Elem.tag] using hd
    subst hdt
    refine ⟨Elem.mk "disabled" da (some v) dcs, ?_, rfl⟩
    rw [Elem.findChild]
    dsimp only [Elem.children]
    rw [listModify_append]
    exact find?_first _ A _ B hA (by simp [Elem.tag])
  | none =>
    dsimp only [Elem.children] at hidx
    have hall := List.findIdx?_eq_none_iff.mp hidx
    refine ⟨Elem.mk "disabled" [] (some v) [], ?_, rfl⟩
    rw [Elem.findChild]
    dsimp only [Elem.children, appendChild]
    have : rcs ++ [Elem.mk "disabled" [] (some v) []] =
        rcs ++ Elem.mk "disabled" [] (some v) [] :: [] := rfl
    rw [this]
    exact find?_first _ rcs _ [] hall (by simp [Elem.tag])

theorem apply_config_xml_remote (d : Elem) (env : RemoteEnv) (r : Remote)
    (hscp : env.scpOk = true) (hmv : env.mvOk = true) :
    (apply_config_xml d env r).2.1 = ⟨d⟩ := by
  unfold apply_config_xml
  rw [hscp, hmv]
  cases env.fw1Ok <;> cases env.fw2Ok <;> simp

/-! ### C8: toggling enforcement is read back by the status scan -/

/-- C8: when the remote document has a `filter` section containing the
parental-control block rule, and fetch and push succeed, then after
`toggle_parental_controls b` the status scan reports the rule present
and `rule_enabled = b`. -/
theorem toggle_then_status (b : Bool) (env : RemoteEnv) (fs : FS) (r : Remote)
    (fi ri : Nat) (fsec : Elem)
    (hfetch : env.fetchOk = true) (hscp : env.scpOk = true) (hmv : env.mvOk = true)
    (hfi : r.doc.children.findIdx? (fun c => c.tag = "filter") = some fi)
    (hfsec : getAt r.doc [fi] = some fsec)
    (hri : fsec.children.findIdx? ruleMatches = some ri) :
    ∃ st : PCStatus,
      get_parental_control_status env fs (toggle_parental_controls b env r).2.1 =
        Except.ok st ∧ st.rule_exists = true ∧ st.rule_enabled = b := by
  obtain ⟨doc⟩ := r
  obtain ⟨t, a, xx, cs⟩ := doc
  dsimp only [Elem.children] at hfi hfsec
  obtain ⟨A, fx, B, hcs, hlen, hpf, hAf⟩ := findIdx?_decomp _ cs fi hfi
  subst hcs
  subst hlen
  have hg : getAt (Elem.mk t a xx (A ++ fx :: B)) [A.length] = some fx := by
    rw [getAt]
    dsimp only [Elem.children]
    rw [get?_append_length]
    rfl
  rw [hg] at hfsec
  injection hfsec with hfsec
  subst hfsec
  obtain ⟨ft, fa, ftx, fcs⟩ := fx
  have hft : ft = "filter" := by simpa [Elem.tag] using hpf
  subst hft
  dsimp only [Elem.children] at hri
  obtain ⟨A2, rule, B2, hf2, hlen2, hpr, hA2⟩ := findIdx?_decomp _ fcs ri hri
  subst hf2
  subst hlen2
  -- the toggled document
  have htog : (toggle_parental_controls b env
      ⟨Elem.mk t a xx (A ++ Elem.mk "filter" fa ftx (A2 ++ rule :: B2) :: B)⟩).2.1 =
      ⟨Elem.mk t a xx (A ++ Elem.mk "filter" fa ftx
        (A2 ++ setDisabled (if b then "0" else "1") rule :: B2) :: B)⟩ := by
    rw [toggle_parental_controls]
    rw [if_neg (by simp [hfetch])]
    dsimp only [Elem.children]
    rw [hfi]
    dsimp only
    rw [hg]
    dsimp only [Elem.children]
    rw [hri]
    dsimp only
    rw [modifyAt, modifyAtChildren_append, modifyAt, modifyAtChildren_append, modifyAt]
    exact apply_config_xml_remote _ env _ hscp hmv
  rw [htog]
  rw [get_parental_control_status]
  rw [if_neg (by simp [hfetch])]
  dsimp only [Elem.children]
  have hfind1 : (A ++ Elem.mk "filter" fa ftx
      (A2 ++ setDisabled (if b then "0" else "1") rule :: B2) :: B).find?
      (fun c => c.tag = "filter") = some (Elem.mk "filter" fa ftx
      (A2 ++ setDisabled (if b then "0" else "1") rule :: B2)) :=
    find?_first _ A _ B hAf (by simp [Elem.tag])
  rw [hfind1]
  dsimp only [Elem.children]
  have hfind2 : (A2 ++ setDisabled (if b then "0" else "1") rule :: B2).find?
      ruleMatches = some (setDisabled (if b then "0" else "1") rule) :=
    find?_first _ A2 _ B2 hA2 (by rw [ruleMatches_setDisabled]; exact hpr)
  rw [hfind2]
  dsimp only
  obtain ⟨dEl, hdEl, hdtext⟩ := setDisabled_disabled_text (if b then "0" else "1") rule
  rw [hdEl]
  dsimp only
  rw [hdtext]
  refine ⟨_, rfl, rfl, ?_⟩
  cases b <;> simp

theorem toggle_then_status_witness :
    ∃ st : PCStatus,
      get_parental_control_status ⟨true, true, true, true, true, true, true, true⟩
        { storeExists := false, store := "" }
        (toggle_parental_controls false ⟨true, true, true, true, true, true, true, true⟩
          ⟨Elem.mk "opnsense" [] none [Elem.mk "filter" [] none
            [Elem.mk "rule" [] none [Elem.mk "descr" [] (some "ParentalControlBlock rule") [],
              Elem.mk "disabled" [] (some "0") []]]]⟩).2.1 =
        Except.ok st ∧ st.rule_exists = true ∧ st.rule_enabled = false :=
  toggle_then_status false ⟨true, true, true, true, true, true, true, true⟩
    { storeExists := false, store := "" }
    ⟨Elem.mk "opnsense" [] none [Elem.mk "filter" [] none
      [Elem.mk "rule" [] none [Elem.mk "descr" [] (some "ParentalControlBlock rule") [],
        Elem.mk "disabled" [] (some "0") []]]]⟩
    0 0 (Elem.mk "filter" [] none
      [Elem.mk "rule" [] none [Elem.mk "descr" [] (some "ParentalControlBlock rule") [],
        Elem.mk "disabled" [] (some "0") []]])
    rfl rfl rfl (by decide) rfl (by decide)

/-! ### C7 machinery: documents without an OPNsense section -/

theorem noOPNElem_parts (c : Elem) (h : noOPNElem c = true) :
    ¬(c.tag = "OPNsense") ∧ noOPNList c.children = true := by
  obtain ⟨ct, ca, cx, ccs⟩ := c
  rw [noOPNElem] at h
  dsimp only [Elem.tag, Elem.children]
  simpa using h

theorem noOPNList_parts (c : Elem) (cs : List Elem)
    (h : noOPNList (c :: cs) = true) :
    noOPNElem c = true ∧ noOPNList cs = true := by
  rw [noOPNList] at h
  simpa using h

mutual

theorem findOPNChain_none_of_noOPN : ∀ (e : Elem), noOPNElem e = true →
    findOPNChain e = none
  | .mk t a x cs => fun h => by
    rw [findOPNChain]
    exact findOPNChainList_none_of_noOPN 0 cs (noOPNElem_parts ⟨t, a, x, cs⟩ h).2

theorem findOPNChainList_none_of_noOPN : ∀ (i : Nat) (cs : List Elem),
    noOPNList cs = true → findOPNChainList i cs = none
  | _, [] => fun _ => by rw [findOPNChainList]
  | i, c :: cs => fun h => by
    have hc := (noOPNList_parts c cs h).1
    have hcs := (noOPNList_parts c cs h).2
    rw [findOPNChainList, if_neg (noOPNElem_parts c hc).1,
      findOPNChain_none_of_noOPN c hc, findOPNChainList_none_of_noOPN (i + 1) cs hcs]
    rfl

end

theorem findOPNChainList_append :
    ∀ (A : List Elem), noOPNList A = true → ∀ (i : Nat) (B : List Elem),
      findOPNChainList i (A ++ B) = findOPNChainList (i + A.length) B := by
  intro A
  induction A with
  | nil => intro _ i B; simp
  | cons c cs ih =>
    intro hA i B
    have hc := (noOPNList_parts c cs hA).1
    have hcs := (noOPNList_parts c cs hA).2
    rw [List.cons_append, findOPNChainList, if_neg (noOPNElem_parts c hc).1,
      findOPNChain_none_of_noOPN c hc, ih hcs (i + 1) B]
    have harith : i + 1 + cs.length = i + (c :: cs).length := by
      simp [List.length_cons]; omega
    rw [harith]
    rfl

theorem noOPN_all_tags (cs : List Elem) (h : noOPNList cs = true) :
    ∀ y ∈ cs, (fun c => (c.tag = "OPNsense" : Bool)) y = false := by
  induction cs with
  | nil => simp
  | cons c cs ih =>
    intro y hy
    have hc := (noOPNList_parts c cs h).1
    have hcs := (noOPNList_parts c cs h).2
    rcases List.mem_cons.mp hy with h1 | h2
    · subst h1; simpa using (noOPNElem_parts y hc).1
    · exact ih hcs y h2

theorem upsertAlias_fresh (an : String) (macs : List String) (now u : String)
    (t : String) (a : List (String × String)) (x : Option String) (cs : List Elem)
    (h : noOPNList cs = true) :
    upsertAlias an macs now u (Elem.mk t a x cs) =
      Elem.mk t a x (cs ++ [Elem.mk "OPNsense" [] none [Elem.mk "Firewall" [] none
        [Elem.mk "Alias" [] none
          [Elem.mk "version" [] (some "1.0.1") [],
           Elem.mk "aliases" [] none
             [Elem.mk "alias" [("uuid", u)] none (aliasProps an macs now)]]]]]) := by
  have hidx : cs.findIdx? (fun c => c.tag = "OPNsense") = none :=
    List.findIdx?_eq_none_iff.mpr (noOPN_all_tags cs h)
  have g1 : getOrCreate (Elem.mk t a x cs) [] "OPNsense" [] =
      (Elem.mk t a x (cs ++ [Elem.mk "OPNsense" [] none []]), [cs.length]) := by
    rw [getOrCreate, getAt]
    dsimp only [Elem.children]
    rw [hidx]
    rfl
  have g2 : getOrCreate (Elem.mk t a x (cs ++ [Elem.mk "OPNsense" [] none []]))
      [cs.length] "Firewall" [] =
      (Elem.mk t a x (cs ++ [Elem.mk "OPNsense" [] none
        [Elem.mk "Firewall" [] none []]]), [cs.length, 0]) := by
    rw [getOrCreate, getAt]
    dsimp only [Elem.children]
    rw [get?_append_length]
    dsimp only [getAt]
    rw [modifyAt, modifyAtChildren_append]
    rfl
  have g3 : getOrCreate (Elem.mk t a x (cs ++ [Elem.mk "OPNsense" [] none
      [Elem.mk "Firewall" [] none []]])) [cs.length, 0] "Alias"
      [Elem.mk "version" [] (some "1.0.1") []] =
      (Elem.mk t a x (cs ++ [Elem.mk "OPNsense" [] none [Elem.mk "Firewall" [] none
        [Elem.mk "Alias" [] none [Elem.mk "version" [] (some "1.0.1") []]]]]),
       [cs.length, 0, 0]) := by
    rw [getOrCreate, getAt]
    dsimp only [Elem.children]
    rw [get?_append_length]
    dsimp only [getAt, Elem.children, List.get?]
    rw [modifyAt, modifyAtChildren_append]
    rfl
  have g4 : getOrCreate (Elem.mk t a x (cs ++ [Elem.mk "OPNsense" [] none
      [Elem.mk "Firewall" [] none
        [Elem.mk "Alias" [] none [Elem.mk "version" [] (some "1.0.1") []]]]]))
      [cs.length, 0, 0] "aliases" [] =
      (Elem.mk t a x (cs ++ [Elem.mk "OPNsense" [] none [Elem.mk "Firewall" [] none
        [Elem.mk "Alias" [] none
          [Elem.mk "version" [] (some "1.0.1") [],
           Elem.mk "aliases" [] none []]]]]), [cs.length, 0, 0, 1]) := by
    rw [getOrCreate, getAt]
    dsimp only [Elem.children]
    rw [get?_append_length]
    dsimp only [getAt, Elem.children, List.get?]
    rw [modifyAt, modifyAtChildren_append]
    rfl
  have hget : getAt (Elem.mk t a x (cs ++ [Elem.mk "OPNsense" [] none
      [Elem.mk "Firewall" [] none [Elem.mk "Alias" [] none
        [Elem.mk "version" [] (some "1.0.1") [],
         Elem.mk "aliases" [] none []]]]])) [cs.length, 0, 0, 1] =
      some (Elem.mk "aliases" [] none []) := by
    rw [getAt]
    dsimp only [Elem.children]
    rw [get?_append_length]
    rfl
  have hfoc : findOPNChain (Elem.mk t a x (cs ++ [Elem.mk "OPNsense" [] none
      [Elem.mk "Firewall" [] none [Elem.mk "Alias" [] none
        [Elem.mk "version" [] (some "1.0.1") [],
         Elem.mk "aliases" [] none []]]]])) = some [cs.length, 0, 0, 1] := by
    rw [findOPNChain, findOPNChainList_append cs h, Nat.zero_add]
    rfl
  have hfind : find_alias_by_name (Elem.mk t a x (cs ++ [Elem.mk "OPNsense" [] none
      [Elem.mk "Firewall" [] none [Elem.mk "Alias" [] none
        [Elem.mk "version" [] (some "1.0.1") [],
         Elem.mk "aliases" [] none []]]]])) an = none := by
    rw [find_alias_by_name, hfoc]
    dsimp only
    rw [hget]
    rfl
  rw [upsertAlias, g1]
  dsimp only
  rw [g2]
  dsimp only
  rw [g3]
  dsimp only
  rw [g4]
  dsimp only
  rw [hfind]
  dsimp only
  rw [hget]
  dsimp only [Elem.children, List.length, List.cons_append, List.nil_append]
  rw [modifyAt, modifyAtChildren_append, modifyAt, modifyAtChildren_append]
  rfl

theorem upsertAlias_found (an : String) (macs : List String) (now u1 u2 : String)
    (t : String) (a : List (String × String)) (x : Option String) (cs : List Elem)
    (h : noOPNList cs = true) :
    upsertAlias an macs now u2 (Elem.mk t a x (cs ++ [Elem.mk "OPNsense" [] none
      [Elem.mk "Firewall" [] none [Elem.mk "Alias" [] none
        [Elem.mk "version" [] (some "1.0.1") [],
         Elem.mk "aliases" [] none
           [Elem.mk "alias" [("uuid", u1)] none (aliasProps an macs now)]]]]])) =
      Elem.mk t a x (cs ++ [Elem.mk "OPNsense" [] none
        [Elem.mk "Firewall" [] none [Elem.mk "Alias" [] none
          [Elem.mk "version" [] (some "1.0.1") [],
           Elem.mk "aliases" [] none
             [Elem.mk "alias" [("uuid", u1)] none (aliasProps an macs now)]]]]]) := by
  have hOPN : (cs ++ [Elem.mk "OPNsense" [] none
      [Elem.mk "Firewall" [] none [Elem.mk "Alias" [] none
        [Elem.mk "version" [] (some "1.0.1") [],
         Elem.mk "aliases" [] none
           [Elem.mk "alias" [("uuid", u1)] none (aliasProps an macs now)]]]]]).findIdx?
      (fun c => c.tag = "OPNsense") = some cs.length :=
    findIdx?_first _ cs _ [] (noOPN_all_tags cs h) (by simp [Elem.tag])
  have g1 : getOrCreate (Elem.mk t a x (cs ++ [Elem.mk "OPNsense" [] none
      [Elem.mk "Firewall" [] none [Elem.mk "Alias" [] none
        [Elem.mk "version" [] (some "1.0.1") [],
         Elem.mk "aliases" [] none
           [Elem.mk "alias" [("uuid", u1)] none (aliasProps an macs now)]]]]]))
      [] "OPNsense" [] =
      (Elem.mk t a x (cs ++ [Elem.mk "OPNsense" [] none
        [Elem.mk "Firewall" [] none [Elem.mk "Alias" [] none
          [Elem.mk "version" [] (some "1.0.1") [],
           Elem.mk "aliases" [] none
             [Elem.mk "alias" [("uuid", u1)] none (aliasProps an macs now)]]]]]),
       [cs.length]) := by
    rw [getOrCreate, getAt]
    dsimp only [Elem.children]
    rw [hOPN]
    rfl
  have hg : ∀ (q : List Nat), (cs ++ [Elem.mk "OPNsense" [] none
      [Elem.mk "Firewall" [] none [Elem.mk "Alias" [] none
        [Elem.mk "version" [] (some "1.0.1") [],
         Elem.mk "aliases" [] none
           [Elem.mk "alias" [("uuid", u1)] none (aliasProps an macs now)]]]]]).get?
      cs.length = some (Elem.mk "OPNsense" [] none
      [Elem.mk "Firewall" [] none [Elem.mk "Alias" [] none
        [Elem.mk "version" [] (some "1.0.1") [],
         Elem.mk "aliases" [] none
           [Elem.mk "alias" [("uuid", u1)] none (aliasProps an macs now)]]]]) :=
    fun _ => get?_append_length cs _ []
  have hmatch : aliasNameMatches an
      (Elem.mk "alias" [("uuid", u1)] none (aliasProps an macs now)) = true := by
    have h1 : Elem.findChild "name"
        (Elem.mk "alias" [("uuid", u1)] none (aliasProps an macs now)) =
        some (Elem.mk "name" [] (some an) []) := rfl
    rw [aliasNameMatches, h1]
    simp [Elem.tag, Elem.text]
  have hfoc : findOPNChain (Elem.mk t a x (cs ++ [Elem.mk "OPNsense" [] none
      [Elem.mk "Firewall" [] none [Elem.mk "Alias" [] none
        [Elem.mk "version" [] (some "1.0.1") [],
         Elem.mk "aliases" [] none
           [Elem.mk "alias" [("uuid", u1)] none (aliasProps an macs now)]]]]])) =
      some [cs.length, 0, 0, 1] := by
    rw [findOPNChain, findOPNChainList_append cs h, Nat.zero_add]
    rfl
  have hget4 : getAt (Elem.mk t a x (cs ++ [Elem.mk "OPNsense" [] none
      [Elem.mk "Firewall" [] none [Elem.mk "Alias" [] none
        [Elem.mk "version" [] (some "1.0.1") [],
         Elem.mk "aliases" [] none
           [Elem.mk "alias" [("uuid", u1)] none (aliasProps an macs now)]]]]]))
      [cs.length, 0, 0, 1] =
      some (Elem.mk "aliases" [] none
        [Elem.mk "alias" [("uuid", u1)] none (aliasProps an macs now)]) := by
    rw [getAt]
    dsimp only [Elem.children]
    rw [hg [0, 0, 1]]
    rfl
  have hfind : find_alias_by_name (Elem.mk t a x (cs ++ [Elem.mk "OPNsense" [] none
      [Elem.mk "Firewall" [] none [Elem.mk "Alias" [] none
        [Elem.mk "version" [] (some "1.0.1") [],
         Elem.mk "aliases" [] none
           [Elem.mk "alias" [("uuid", u1)] none (aliasProps an macs now)]]]]])) an =
      some [cs.length, 0, 0, 1, 0] := by
    rw [find_alias_by_name, hfoc]
    dsimp only
    rw [hget4]
    dsimp only [Elem.children]
    rw [List.findIdx?_cons, if_pos hmatch]
    rfl
  have hgetAlias : getAt (Elem.mk t a x (cs ++ [Elem.mk "OPNsense" [] none
      [Elem.mk "Firewall" [] none [Elem.mk "Alias" [] none
        [Elem.mk "version" [] (some "1.0.1") [],
         Elem.mk "aliases" [] none
           [Elem.mk "alias" [("uuid", u1)] none (aliasProps an macs now)]]]]]))
      [cs.length, 0, 0, 1, 0] =
      some (Elem.mk "alias" [("uuid", u1)] none (aliasProps an macs now)) := by
    rw [getAt]
    dsimp only [Elem.children]
    rw [hg [0, 0, 1, 0]]
    rfl
  have g2 : getOrCreate (Elem.mk t a x (cs ++ [Elem.mk "OPNsense" [] none
      [Elem.mk "Firewall" [] none [Elem.mk "Alias" [] none
        [Elem.mk "version" [] (some "1.0.1") [],
         Elem.mk "aliases" [] none
           [Elem.mk "alias" [("uuid", u1)] none (aliasProps an macs now)]]]]]))
      [cs.length] "Firewall" [] =
      (Elem.mk t a x (cs ++ [Elem.mk "OPNsense" [] none
        [Elem.mk "Firewall" [] none [Elem.mk "Alias" [] none
          [Elem.mk "version" [] (some "1.0.1") [],
           Elem.mk "aliases" [] none
             [Elem.mk "alias" [("uuid", u1)] none (aliasProps an macs now)]]]]]),
       [cs.length, 0]) := by
    rw [getOrCreate, getAt]
    dsimp only [Elem.children]
    rw [hg []]
    rfl
  have g3 : getOrCreate (Elem.mk t a x (cs ++ [Elem.mk "OPNsense" [] none
      [Elem.mk "Firewall" [] none [Elem.mk "Alias" [] none
        [Elem.mk "version" [] (some "1.0.1") [],
         Elem.mk "aliases" [] none
           [Elem.mk "alias" [("uuid", u1)] none (aliasProps an macs now)]]]]]))
      [cs.length, 0] "Alias" [Elem.mk "version" [] (some "1.0.1") []] =
      (Elem.mk t a x (cs ++ [Elem.mk "OPNsense" [] none
        [Elem.mk "Firewall" [] none [Elem.mk "Alias" [] none
          [Elem.mk "version" [] (some "1.0.1") [],
           Elem.mk "aliases" [] none
             [Elem.mk "alias" [("uuid", u1)] none (aliasProps an macs now)]]]]]),
       [cs.length, 0, 0]) := by
    rw [getOrCreate, getAt]
    dsimp only [Elem.children]
    rw [hg []]
    rfl
  have g4 : getOrCreate (Elem.mk t a x (cs ++ [Elem.mk "OPNsense" [] none
      [Elem.mk "Firewall" [] none [Elem.mk "Alias" [] none
        [Elem.mk "version" [] (some "1.0.1") [],
         Elem.mk "aliases" [] none
           [Elem.mk "alias" [("uuid", u1)] none (aliasProps an macs now)]]]]]))
      [cs.length, 0, 0] "aliases" [] =
      (Elem.mk t a x (cs ++ [Elem.mk "OPNsense" [] none
        [Elem.mk "Firewall" [] none [Elem.mk "Alias" [] none
          [Elem.mk "version" [] (some "1.0.1") [],
           Elem.mk "aliases" [] none
             [Elem.mk "alias" [("uuid", u1)] none (aliasProps an macs now)]]]]]),
       [cs.length, 0, 0, 1]) := by
    rw [getOrCreate, getAt]
    dsimp only [Elem.children]
    rw [hg []]
    rfl
  rw [upsertAlias, g1]
  dsimp only
  rw [g2]
  dsimp only
  rw [g3]
  dsimp only
  rw [g4]
  dsimp only
  rw [hfind]
  dsimp only
  exact modifyAt_id_of_getAt _ _ _ _ hgetAlias rfl

/-! ### C7: idempotence of the alias upsert -/

/-- C7 (amended): the upsert reproduces the alias subtree only when the
generation timestamp is held fixed and the descendant alias lookup
cannot diverge from the direct-child section walk.  Two such cases are
proved, for any name, MAC list, fixed timestamp and uuids: (1) on a
document with no `OPNsense` element the first run creates the canonical
section chain and the second run finds it and rewrites the alias in
place, leaving the document unchanged and the first run's uuid intact
(the second freshly generated uuid is unused); (2) a document whose
`OPNsense` direct child is exactly the canonically written chain
holding the alias is a fixed point of the upsert.  Outside these cases
the claim fails: the description embeds the run's wall-clock timestamp,
and on a document whose first `.//OPNsense/Firewall/Alias/aliases`
chain in preorder is nested rather than the direct-child one, the
lookup never sees the created alias and every run appends another alias
element (see the counterexample, which exhibits both failure modes). -/
theorem upsert_alias_idempotent_amended (an : String) (macs : List String)
    (now u1 u2 : String) :
    (∀ (root : Elem), noOPNList root.children = true →
      upsertAlias an macs now u2 (upsertAlias an macs now u1 root) =
        upsertAlias an macs now u1 root) ∧
    (∀ (t : String) (a : List (String × String)) (x : Option String)
      (cs : List Elem), noOPNList cs = true →
      upsertAlias an macs now u2 (Elem.mk t a x (cs ++ [Elem.mk "OPNsense" [] none
        [Elem.mk "Firewall" [] none [Elem.mk "Alias" [] none
          [Elem.mk "version" [] (some "1.0.1") [],
           Elem.mk "aliases" [] none
             [Elem.mk "alias" [("uuid", u1)] none (aliasProps an macs now)]]]]])) =
        Elem.mk t a x (cs ++ [Elem.mk "OPNsense" [] none
          [Elem.mk "Firewall" [] none [Elem.mk "Alias" [] none
            [Elem.mk "version" [] (some "1.0.1") [],
             Elem.mk "aliases" [] none
               [Elem.mk "alias" [("uuid", u1)] none (aliasProps an macs now)]]]]])) := by
  constructor
  · intro root h
    obtain ⟨t, a, x, cs⟩ := root
    dsimp only [Elem.children] at h
    rw [upsertAlias_fresh an macs now u1 t a x cs h]
    exact upsertAlias_found an macs now u1 u2 t a x cs h
  · intro t a x cs h
    exact upsertAlias_found an macs now u1 u2 t a x cs h

theorem upsert_alias_idempotent_amended_witness :
    (upsertAlias "ParentalControlMACs" ["AA:BB:CC:DD:EE:FF"] "2025-01-01 10:00:00" "u2"
      (upsertAlias "ParentalControlMACs" ["AA:BB:CC:DD:EE:FF"] "2025-01-01 10:00:00" "u1"
        (Elem.mk "config" [] none [Elem.mk "system" [] (some "s") []])) =
      upsertAlias "ParentalControlMACs" ["AA:BB:CC:DD:EE:FF"] "2025-01-01 10:00:00" "u1"
        (Elem.mk "config" [] none [Elem.mk "system" [] (some "s") []])) ∧
    (upsertAlias "ParentalControlMACs" ["AA:BB:CC:DD:EE:FF"] "2025-01-01 10:00:00" "u2"
      (Elem.mk "opnsense" [] none ([] ++ [Elem.mk "OPNsense" [] none
        [Elem.mk "Firewall" [] none [Elem.mk "Alias" [] none
          [Elem.mk "version" [] (some "1.0.1") [],
           Elem.mk "aliases" [] none
             [Elem.mk "alias" [("uuid", "u1")] none
               (aliasProps "ParentalControlMACs" ["AA:BB:CC:DD:EE:FF"]
                 "2025-01-01 10:00:00")]]]]])) =
      Elem.mk "opnsense" [] none ([] ++ [Elem.mk "OPNsense" [] none
        [Elem.mk "Firewall" [] none [Elem.mk "Alias" [] none
          [Elem.mk "version" [] (some "1.0.1") [],
           Elem.mk "aliases" [] none
             [Elem.mk "alias" [("uuid", "u1")] none
               (aliasProps "ParentalControlMACs" ["AA:BB:CC:DD:EE:FF"]
                 "2025-01-01 10:00:00")]]]]])) :=
  ⟨(upsert_alias_idempotent_amended "ParentalControlMACs" ["AA:BB:CC:DD:EE:FF"]
      "2025-01-01 10:00:00" "u1" "u2").1
    (Elem.mk "config" [] none [Elem.mk "system" [] (some "s") []]) (by decide),
   (upsert_alias_idempotent_amended "ParentalControlMACs" ["AA:BB:CC:DD:EE:FF"]
      "2025-01-01 10:00:00" "u1" "u2").2
    "opnsense" [] none [] (by decide)⟩

/-- C7 counterexample, refuting the unrestricted idempotence claim in
two independent ways.  First: the description written into the alias
carries the wall-clock timestamp of the run, so two successive upserts
with the same device set but different clock readings produce alias
subtrees that are not byte-identical.  Second: even with the timestamp
held fixed, on a document whose only `Firewall/Alias/aliases` chain
lies under a nested (non-direct-child) `OPNsense` element, the
descendant search of `find_alias_by_name` keeps returning that nested
section while the get-or-create walk over direct children builds and
uses a fresh chain, so the lookup never finds the previously written
alias and the second run appends a second alias element instead of
reproducing the document. -/
theorem upsert_alias_idempotence_counterexample :
    (¬ (Option.map serializeElem
        ((find_alias_by_name
            (upsertAlias "ParentalControlMACs" ["AA:BB:CC:DD:EE:FF"]
              "2025-01-01 10:05:00" "u2"
              (upsertAlias "ParentalControlMACs" ["AA:BB:CC:DD:EE:FF"]
                "2025-01-01 10:00:00" "u1" (Elem.mk "config" [] none [])))
            "ParentalControlMACs").bind
          (getAt (upsertAlias "ParentalControlMACs" ["AA:BB:CC:DD:EE:FF"]
              "2025-01-01 10:05:00" "u2"
              (upsertAlias "ParentalControlMACs" ["AA:BB:CC:DD:EE:FF"]
                "2025-01-01 10:00:00" "u1" (Elem.mk "config" [] none []))))) =
       Option.map serializeElem
        ((find_alias_by_name
            (upsertAlias "ParentalControlMACs" ["AA:BB:CC:DD:EE:FF"]
              "2025-01-01 10:00:00" "u1" (Elem.mk "config" [] none []))
            "ParentalControlMACs").bind
          (getAt (upsertAlias "ParentalControlMACs" ["AA:BB:CC:DD:EE:FF"]
              "2025-01-01 10:00:00" "u1" (Elem.mk "config" [] none [])))))) ∧
    (¬ (serializeElem
        (upsertAlias "ParentalControlMACs" ["AA:BB:CC:DD:EE:FF"]
          "2025-01-01 10:00:00" "u2"
          (upsertAlias "ParentalControlMACs" ["AA:BB:CC:DD:EE:FF"]
            "2025-01-01 10:00:00" "u1"
            (Elem.mk "opnsense" [] none [Elem.mk "wrapper" [] none
              [Elem.mk "OPNsense" [] none [Elem.mk "Firewall" [] none
                [Elem.mk "Alias" [] none [Elem.mk "aliases" [] none []]]]]]))) =
       serializeElem
        (upsertAlias "ParentalControlMACs" ["AA:BB:CC:DD:EE:FF"]
          "2025-01-01 10:00:00" "u1"
          (Elem.mk "opnsense" [] none [Elem.mk "wrapper" [] none
            [Elem.mk "OPNsense" [] none [Elem.mk "Firewall" [] none
              [Elem.mk "Alias" [] none [Elem.mk "aliases" [] none []]]]]])))) :=
  ⟨by decide, by decide⟩
